import Mathlib

/-!
# AdptArray.c : a shallow embedding

The adaptive array of `src/AdptArray.c` as Lean definitions.

* A `PElement` (`void *`) is `Option Nat`: `none` is `NULL`, `some p` the address `p`.
* `int` values are `Int`; the two `int` expressions of the source that can leave the
  32-bit range, `(index + 1) * 2` and `index + 1`, go through `wrap32`.
* The three function pointers are effectful C functions: they act on a caller world `W`.
  Every invocation is also recorded in a call log (`Env.calls`).
* `malloc` returns memory whose contents are indeterminate. Each call of `malloc` is an
  argument of the operation that makes it: `none` is a `NULL` result, `some g` a block whose
  slot `k` initially holds `g k`.
* The block behind `data` has `capacity` slots (lines 36/42 and 85/92). An operation that
  reads or writes a slot outside `0 .. capacity - 1`, or copies more slots than a block has,
  has undefined behaviour: it yields `none` instead of an outcome.
* A slot is occupied when it owns an element: one that `SetAdptArrayAt` stored there
  (line 97) and that has not been released since; otherwise it is empty. Which element each
  slot owns is followed along a run (`ReachableOwning`). The code itself tests the content
  of a slot against `NULL` (lines 60, 94, 119, 151).
-/

namespace AdptArray

/-- Modelled from the spec: the opaque element handle `PElement` of the header
`AdptArray.h` (a `void *`); `none` is `NULL`. -/
abbrev PElement := Option Nat

/-- Modelled from the spec: the `Result` of the header `AdptArray.h`, success or failure. -/
inductive Result where
  | FAIL
  | SUCCESS
  deriving DecidableEq, Repr

/-- One invocation of a bound element operation, with its argument (and, for a copy, the
handle it returned). -/
inductive Event where
  | copy (arg res : PElement)
  | del (arg : PElement)
  | print (arg : PElement)
  deriving DecidableEq, Repr

/-- What the element operations act on: the caller's world and the log of the invocations
made so far. -/
structure Env (W : Type) where
  world : W
  calls : List Event

/-- Line 6: `#define INITIAL_CAPACITY 10`. -/
def INITIAL_CAPACITY : Int := 10

def INT_MIN : Int := -2147483648

def INT_MAX : Int := 2147483647

/-- The value of an `int` expression whose exact value is `v` (two's complement, 32 bits). -/
def wrap32 (v : Int) : Int := (v + 2147483648) % 4294967296 - 2147483648

/-- Lines 13-20: `struct AdptArray_`. `data k` is the content of slot `k` of the block that
`data` points to; the block has `capacity` slots. -/
structure AdptArray_ (W : Type) where
  data : Nat → PElement
  size : Int
  capacity : Int
  copy_func : PElement → W → PElement × W
  del_func : PElement → W → W
  print_func : PElement → W → W

/-- A handle `PAdptArray`: `none` is `NULL`, `some a` points to the array `a`. -/
abbrev PAdptArray (W : Type) := Option (AdptArray_ W)

/-- Outcome of an operation: the C return value, the array behind the handle afterwards,
and the environment afterwards. -/
structure Ret (W : Type) (α : Type) where
  val : α
  arr : PAdptArray W
  env : Env W

/-- The call `arr->copy_func(x)`. -/
def callCopy {W : Type} (a : AdptArray_ W) (x : PElement) (env : Env W) : PElement × Env W :=
  ((a.copy_func x env.world).1,
    { world := (a.copy_func x env.world).2, calls := env.calls ++ [Event.copy x (a.copy_func x env.world).1] })

/-- The call `arr->del_func(x)`. -/
def callDel {W : Type} (a : AdptArray_ W) (x : PElement) (env : Env W) : Env W :=
  { world := a.del_func x env.world, calls := env.calls ++ [Event.del x] }

/-- The call `arr->print_func(x)`. -/
def callPrint {W : Type} (a : AdptArray_ W) (x : PElement) (env : Env W) : Env W :=
  { world := a.print_func x env.world, calls := env.calls ++ [Event.print x] }

/-- Lines 31-47. `arr_alloc` tells whether the `malloc` of the struct succeeded, `data_alloc`
is the result of the `malloc` of the backing storage. -/
def CreateAdptArray {W : Type} (copy_func : PElement → W → PElement × W)
    (del_func : PElement → W → W) (print_func : PElement → W → W)
    (arr_alloc : Bool) (data_alloc : Option (Nat → PElement)) : PAdptArray W :=
  if arr_alloc = false then none
  else
    match data_alloc with
    | none => none
    | some g =>
      some { data := g, size := 0, capacity := INITIAL_CAPACITY,
             copy_func := copy_func, del_func := del_func, print_func := print_func }

/-- Lines 85-92 once `malloc` has returned the block `g`: `memcpy` of the first `size` slots
into the new block, which becomes the backing storage. `none` when the `memcpy` would read
or write outside a block; a `memcpy` of no slot at all touches nothing. -/
def growTo {W : Type} (a : AdptArray_ W) (new_capacity : Int) (g : Nat → PElement) :
    Option (AdptArray_ W) :=
  if 0 ≤ a.size ∧ (a.size = 0 ∨ (a.size ≤ a.capacity ∧ a.size ≤ new_capacity)) then
    some { a with data := fun k => if (k : Int) < a.size then a.data k else g k,
                  capacity := new_capacity }
  else none

/-- The environment after lines 94-96 of `SetAdptArrayAt`: `del_func` has been called on the
content of slot `index` when that content is not `NULL`. -/
def afterRelease {W : Type} (a : AdptArray_ W) (index : Int) (env : Env W) : Env W :=
  if a.data index.toNat ≠ none then callDel a (a.data index.toNat) env else env

/-- Lines 94-104: release what slot `index` holds, store the duplicate of `elem`, update
`size`. `none` when slot `index` is outside the backing storage. -/
def storeAt {W : Type} (a : AdptArray_ W) (index : Int) (elem : PElement) (env : Env W) :
    Option (Ret W Result) :=
  if 0 ≤ index ∧ index < a.capacity then
    let env1 := afterRelease a index env
    let dup := (callCopy a elem env1).1
    let env2 := (callCopy a elem env1).2
    let a1 : AdptArray_ W := { a with data := fun k => if k = index.toNat then dup else a.data k }
    if dup = none then some { val := Result.FAIL, arr := some a1, env := env2 }
    else if index ≥ a1.size then
      some { val := Result.SUCCESS, arr := some { a1 with size := wrap32 (index + 1) }, env := env2 }
    else some { val := Result.SUCCESS, arr := some a1, env := env2 }
  else none

/-- Lines 79-105. `new_data` is the result of the `malloc` of line 85 (consulted only when
that line is reached). -/
def SetAdptArrayAt {W : Type} (arr : PAdptArray W) (index : Int) (elem : PElement)
    (new_data : Option (Nat → PElement)) (env : Env W) : Option (Ret W Result) :=
  match arr with
  | none => some { val := Result.FAIL, arr := none, env := env }
  | some a =>
    if index < 0 then some { val := Result.FAIL, arr := some a, env := env }
    else if index ≥ a.capacity then
      let new_capacity := wrap32 (wrap32 (index + 1) * 2)
      match new_data with
      | none => some { val := Result.FAIL, arr := some a, env := env }
      | some g =>
        match growTo a new_capacity g with
        | none => none
        | some a1 => storeAt a1 index elem env
    else storeAt a index elem env

/-- Lines 118-123. `none` when the slot read is outside the backing storage. -/
def GetAdptArrayAt {W : Type} (arr : PAdptArray W) (index : Int) (env : Env W) :
    Option (Ret W PElement) :=
  match arr with
  | none => some { val := none, arr := none, env := env }
  | some a =>
    if index < 0 ∨ index ≥ a.size then some { val := none, arr := some a, env := env }
    else if index < a.capacity then
      if a.data index.toNat = none then some { val := none, arr := some a, env := env }
      else some { val := (callCopy a (a.data index.toNat) env).1, arr := some a,
                  env := (callCopy a (a.data index.toNat) env).2 }
    else none

/-- Lines 132-137. -/
def GetAdptArraySize {W : Type} (arr : PAdptArray W) : Int :=
  match arr with
  | none => -1
  | some a => a.size

/-- The loop of lines 59-63 and of lines 150-154: for `i` from `0` to `size - 1`, apply
`call` to every slot that is not `NULL`. `none` when a slot read is outside the storage. -/
def forSlots {W : Type} (a : AdptArray_ W) (call : AdptArray_ W → PElement → Env W → Env W)
    (env : Env W) : Option (Env W) :=
  (List.range a.size.toNat).foldl
    (fun (acc : Option (Env W)) (i : Nat) =>
      match acc with
      | none => none
      | some e =>
        if (i : Int) < a.capacity then
          (if a.data i ≠ none then some (call a (a.data i) e) else some e)
        else none)
    (some env)

/-- Lines 55-66. The array does not exist afterwards: the outcome is the environment. -/
def DeleteAdptArray {W : Type} (arr : PAdptArray W) (env : Env W) : Option (Env W) :=
  match arr with
  | none => some env
  | some a => forSlots a callDel env

/-- Lines 146-155. -/
def PrintDB {W : Type} (arr : PAdptArray W) (env : Env W) : Option (Ret W Unit) :=
  match arr with
  | none => some { val := (), arr := none, env := env }
  | some a => (forSlots a callPrint env).map (fun e => { val := (), arr := some a, env := e })

/-- The values of type `int`. -/
def IsInt (v : Int) : Prop := INT_MIN ≤ v ∧ v ≤ INT_MAX

/-- The array `b` that lines 94-104 work on in a call at `index` on `a`: `a` itself when
the slot is inside the storage, otherwise `a` with its storage replaced by the new block. -/
def StoreBase {W : Type} (a : AdptArray_ W) (index : Int) (new_data : Option (Nat → PElement))
    (b : AdptArray_ W) : Prop :=
  (index < a.capacity ∧ b = a) ∨
  (∃ g, new_data = some g ∧ a.capacity ≤ index ∧
    (0 ≤ index ∧ 0 ≤ a.size ∧
      (a.size = 0 ∨ (a.size ≤ a.capacity ∧ a.size ≤ wrap32 (wrap32 (index + 1) * 2)))) ∧
    b = { a with data := fun k => if (k : Int) < a.size then a.data k else g k,
                 capacity := wrap32 (wrap32 (index + 1) * 2) })

/-- The outcome of lines 94-104 on the base array `b`. -/
def storeOutcome {W : Type} (b : AdptArray_ W) (index : Int) (elem : PElement) (env : Env W) :
    Ret W Result :=
  { val := if (callCopy b elem (afterRelease b index env)).1 = none
           then Result.FAIL else Result.SUCCESS,
    arr := some { b with
      data := fun k => if k = index.toNat
        then (callCopy b elem (afterRelease b index env)).1 else b.data k,
      size := if (callCopy b elem (afterRelease b index env)).1 ≠ none ∧ index ≥ b.size
        then wrap32 (index + 1) else b.size },
    env := (callCopy b elem (afterRelease b index env)).2 }

/-! ## Sample element operations and arrays

The world of these operations is the number of duplicates alive. -/

/-- A copy operation that never fails: the duplicate carries the value of its argument. -/
def sampleCopy : PElement → Nat → PElement × Nat := fun x w => (x, w + 1)

/-- A copy operation that fails on the element `some 2` and on `NULL`. -/
def fussyCopy : PElement → Nat → PElement × Nat :=
  fun x w => if x = some 2 ∨ x = none then (none, w) else (x, w + 1)

def sampleDel : PElement → Nat → Nat := fun _ w => w - 1

def samplePrint : PElement → Nat → Nat := fun _ w => w

/-- A block that happens to be all `NULL`. -/
def zeroBlock : Nat → PElement := fun _ => none

/-- A block with a stale non-null word in every slot but slots 5 and 25. -/
def staleBlock : Nat → PElement :=
  fun k => if k = 5 ∨ k = 25 then none else some (1000 + k)

def env0 : Env Nat := { world := 0, calls := [] }

/-- The array of `CreateAdptArray(sampleCopy, sampleDel, samplePrint)` when `malloc` hands
out the block `g`. -/
def sampleArray (g : Nat → PElement) : AdptArray_ Nat :=
  { data := g, size := 0, capacity := INITIAL_CAPACITY,
    copy_func := sampleCopy, del_func := sampleDel, print_func := samplePrint }

/-- The sample array after `SetAdptArrayAt(a, 3, some 7)` on zeroed storage: one element,
size 4. -/
def sampleArray3 : AdptArray_ Nat :=
  { sampleArray zeroBlock with data := fun k => if k = 3 then some 7 else none, size := 4 }

/-- The array of `CreateAdptArray(fussyCopy, sampleDel, samplePrint)` on zeroed storage
after `SetAdptArrayAt(a, 3, some 7)`. -/
def fussyArray3 : AdptArray_ Nat :=
  { sampleArray3 with copy_func := fussyCopy }

/-- The sample array on stale storage after `SetAdptArrayAt(a, 5, some 7)`. -/
def staleArray5 : AdptArray_ Nat :=
  { sampleArray staleBlock with
      data := fun k => if k = 5 then some 7 else staleBlock k, size := 6 }

/-- The sample array after `SetAdptArrayAt(a, 25, some 7)` on a fresh array, when the
`malloc` of the growth step hands out stale storage. -/
def grownArray25 : AdptArray_ Nat :=
  { sampleArray zeroBlock with
      data := fun k => if k = 25 then some 7 else staleBlock k, size := 26, capacity := 52 }

/-- The arrays a program can hold: made by `CreateAdptArray`, then taken through completed
calls of `SetAdptArrayAt`. -/
inductive Reachable {W : Type} : AdptArray_ W → Prop where
  | create (copy_func : PElement → W → PElement × W) (del_func : PElement → W → W)
      (print_func : PElement → W → W) (g : Nat → PElement) (a : AdptArray_ W)
      (h : CreateAdptArray copy_func del_func print_func true (some g) = some a) :
      Reachable a
  | set (a : AdptArray_ W) (index : Int) (elem : PElement)
      (new_data : Option (Nat → PElement)) (env : Env W) (out : Ret W Result)
      (a' : AdptArray_ W) (ha : Reachable a)
      (h : SetAdptArrayAt (some a) index elem new_data env = some out)
      (harr : out.arr = some a') : Reachable a'

/-- Every slot at or beyond `size` holds `NULL`: what the storage would look like if it
had been cleared when allocated. -/
def NullBeyondSize {W : Type} (a : AdptArray_ W) : Prop :=
  ∀ k : Nat, a.size ≤ (k : Int) → a.data k = none

/-- What a caller sees of a finished `GetAdptArrayAt`: the element returned and the
environment. -/
def observed {W : Type} (r : Option (Ret W PElement)) : Option (PElement × Env W) :=
  r.map (fun o => (o.val, o.env))

/-- The sample array on stale storage after `SetAdptArrayAt(a, 3, some 7)`. -/
def staleArray3 : AdptArray_ Nat :=
  { sampleArray staleBlock with
      data := fun k => if k = 3 then some 7 else staleBlock k, size := 4 }

/-- The sample array on zeroed storage after `SetAdptArrayAt(a, 5, some 7)`: one element,
in slot 5, and five gap slots below it. -/
def sampleArray5 : AdptArray_ Nat :=
  { sampleArray zeroBlock with data := fun k => if k = 5 then some 7 else none, size := 6 }

/-- The arrays a program could hold if every block handed out by `malloc` were all `NULL`
(as `calloc` would give): made by `CreateAdptArray`, then taken through completed calls of
`SetAdptArrayAt`. -/
inductive ReachableCleared {W : Type} : AdptArray_ W → Prop where
  | create (copy_func : PElement → W → PElement × W) (del_func : PElement → W → W)
      (print_func : PElement → W → W) (a : AdptArray_ W)
      (h : CreateAdptArray copy_func del_func print_func true (some zeroBlock) = some a) :
      ReachableCleared a
  | set (a : AdptArray_ W) (index : Int) (elem : PElement)
      (new_data : Option (Nat → PElement)) (env : Env W) (out : Ret W Result)
      (a' : AdptArray_ W) (ha : ReachableCleared a)
      (hz : ∀ g, new_data = some g → ∀ k, g k = none)
      (h : SetAdptArrayAt (some a) index elem new_data env = some out)
      (harr : out.arr = some a') : ReachableCleared a'

/-- The handles that `copy_func` returned, other than `NULL`, in a call log. -/
def copiedOut (calls : List Event) : List PElement :=
  calls.filterMap (fun ev =>
    match ev with
    | Event.copy _ res => if res = none then none else some res
    | _ => none)

/-- The handles that were passed to `del_func` in a call log. -/
def released (calls : List Event) : List PElement :=
  calls.filterMap (fun ev =>
    match ev with
    | Event.del x => some x
    | _ => none)

/-- The handles, other than `NULL`, held by the slots below `size`, as a multiset. -/
def heldHandles {W : Type} (a : AdptArray_ W) : Multiset PElement :=
  ((Multiset.range a.size.toNat).map a.data).filter (fun x => x ≠ none)

/-- The handle `x` as a multiset: empty for `NULL`. -/
def handle (x : PElement) : Multiset PElement := if x ≠ none then {x} else 0

/-- Runs on cleared storage: the array a program holds after `CreateAdptArray` and completed
calls of `SetAdptArrayAt`, every block handed out by `malloc` being all `NULL`, together
with the log of the calls those operations made. Each call starts from the log so far; the
caller's world between two calls is arbitrary. -/
inductive RunCleared {W : Type} : AdptArray_ W → List Event → Prop where
  | create (copy_func : PElement → W → PElement × W) (del_func : PElement → W → W)
      (print_func : PElement → W → W) (a : AdptArray_ W)
      (h : CreateAdptArray copy_func del_func print_func true (some zeroBlock) = some a) :
      RunCleared a []
  | set (a : AdptArray_ W) (log : List Event) (index : Int) (elem : PElement)
      (new_data : Option (Nat → PElement)) (w : W) (out : Ret W Result)
      (a' : AdptArray_ W) (hr : RunCleared a log)
      (hz : ∀ g, new_data = some g → ∀ k, g k = none)
      (h : SetAdptArrayAt (some a) index elem new_data { world := w, calls := log } = some out)
      (harr : out.arr = some a') : RunCleared a' out.env.calls

/-- The element each slot owns after a completed `SetAdptArrayAt(a, index, elem)` that left
the array `a'`, given what each slot owned before (`none`: the slot is empty). A call that
returns at line 81 or at line 87 changes nothing. A call that reaches line 97 has released
what slot `index` owned and makes it own what line 97 stored: the duplicate, or nothing
when `copy_func` returned `NULL`. -/
def ownedAfter {W : Type} (a : AdptArray_ W) (owned : Nat → PElement) (index : Int)
    (new_data : Option (Nat → PElement)) (a' : AdptArray_ W) : Nat → PElement :=
  if index < 0 ∨ (a.capacity ≤ index ∧ new_data.isNone = true) then owned
  else fun k => if k = index.toNat then a'.data index.toNat else owned k

/-- The arrays a program can hold, each with the element that every slot owns: after
`CreateAdptArray` no slot owns anything, and every completed `SetAdptArrayAt` changes the
ownership as `ownedAfter` says. A slot `k` is occupied when `owned k` is not `none`. -/
inductive ReachableOwning {W : Type} : AdptArray_ W → (Nat → PElement) → Prop where
  | create (copy_func : PElement → W → PElement × W) (del_func : PElement → W → W)
      (print_func : PElement → W → W) (g : Nat → PElement) (a : AdptArray_ W)
      (h : CreateAdptArray copy_func del_func print_func true (some g) = some a) :
      ReachableOwning a (fun _ => none)
  | set (a : AdptArray_ W) (owned : Nat → PElement) (index : Int) (elem : PElement)
      (new_data : Option (Nat → PElement)) (env : Env W) (out : Ret W Result)
      (a' : AdptArray_ W) (ha : ReachableOwning a owned)
      (h : SetAdptArrayAt (some a) index elem new_data env = some out)
      (harr : out.arr = some a') :
      ReachableOwning a' (ownedAfter a owned index new_data a')

/-! ## Sample operations whose world is the output stream

`streamPrint` appends the element it is given to the world. -/

def streamCopy : PElement → List PElement → PElement × List PElement := fun x w => (x, w)

def streamDel : PElement → List PElement → List PElement := fun _ w => w

def streamPrint : PElement → List PElement → List PElement := fun x w => w ++ [x]

/-- The array of `CreateAdptArray(streamCopy, streamDel, streamPrint)` on the block `g`. -/
def streamArray (g : Nat → PElement) : AdptArray_ (List PElement) :=
  { data := g, size := 0, capacity := INITIAL_CAPACITY,
    copy_func := streamCopy, del_func := streamDel, print_func := streamPrint }

/-- The stream array on stale storage after `SetAdptArrayAt(a, 5, some 7)`. -/
def streamArray5 : AdptArray_ (List PElement) :=
  { streamArray staleBlock with
      data := fun k => if k = 5 then some 7 else staleBlock k, size := 6 }

/-- The array of `CreateAdptArray(fussyCopy, sampleDel, samplePrint)` on zeroed storage. -/
def fussyArray : AdptArray_ Nat :=
  { sampleArray zeroBlock with copy_func := fussyCopy }

/-- The indices below `size` whose slot holds a handle that is not `NULL`, in ascending
order: the slots on which the loops of `DeleteAdptArray` and `PrintDB` act. -/
def heldBelowSize {W : Type} (a : AdptArray_ W) : List Nat :=
  (List.range a.size.toNat).filter (fun i => a.data i ≠ none)

/-! ## Arithmetic of `int` -/

theorem wrap32_of_isInt (v : Int) (h : IsInt v) : wrap32 v = v := by
  unfold IsInt INT_MIN INT_MAX at h
  unfold wrap32
  omega

theorem wrap32_isInt (v : Int) : IsInt (wrap32 v) := by
  unfold IsInt INT_MIN INT_MAX wrap32
  omega

/-- When the doubled capacity of line 84 exceeds the index it was computed from, neither
`index + 1` nor the doubling overflowed. -/
theorem new_capacity_exact (index : Int) (h0 : 0 ≤ index)
    (h : index < wrap32 (wrap32 (index + 1) * 2)) :
    wrap32 (wrap32 (index + 1) * 2) = (index + 1) * 2 ∧ index + 1 ≤ 1073741823 := by
  unfold wrap32 at h ⊢
  omega

theorem new_capacity_of_small (index : Int) (h0 : 0 ≤ index) (h : index + 1 ≤ 1073741823) :
    wrap32 (wrap32 (index + 1) * 2) = (index + 1) * 2 := by
  unfold wrap32
  omega

/-! ## The steps of `SetAdptArrayAt` -/

theorem storeAt_eq {W : Type} (b : AdptArray_ W) (index : Int) (elem : PElement) (env : Env W)
    (h0 : 0 ≤ index) (h1 : index < b.capacity) :
    storeAt b index elem env =
      some { val := if (callCopy b elem (afterRelease b index env)).1 = none
                    then Result.FAIL else Result.SUCCESS,
             arr := some { b with
               data := fun k => if k = index.toNat
                 then (callCopy b elem (afterRelease b index env)).1 else b.data k,
               size := if (callCopy b elem (afterRelease b index env)).1 ≠ none ∧ index ≥ b.size
                 then wrap32 (index + 1) else b.size },
             env := (callCopy b elem (afterRelease b index env)).2 } := by
  unfold storeAt
  simp only [h0, h1, and_self, if_true]
  generalize callCopy b elem (afterRelease b index env) = d
  by_cases hd : d.1 = none
  · simp [hd]
  · by_cases hs : index ≥ b.size
    · simp [hd, hs]
    · simp [hd, hs]

theorem storeAt_isSome {W : Type} (b : AdptArray_ W) (index : Int) (elem : PElement)
    (env : Env W) (out : Ret W Result) (h : storeAt b index elem env = some out) :
    0 ≤ index ∧ index < b.capacity := by
  unfold storeAt at h
  by_cases hb : 0 ≤ index ∧ index < b.capacity
  · exact hb
  · simp [hb] at h

theorem growTo_eq {W : Type} (a : AdptArray_ W) (n : Int) (g : Nat → PElement)
    (b : AdptArray_ W) (h : growTo a n g = some b) :
    (0 ≤ a.size ∧ (a.size = 0 ∨ (a.size ≤ a.capacity ∧ a.size ≤ n))) ∧
    b = { a with data := fun k => if (k : Int) < a.size then a.data k else g k,
                 capacity := n } := by
  unfold growTo at h
  by_cases hb : 0 ≤ a.size ∧ (a.size = 0 ∨ (a.size ≤ a.capacity ∧ a.size ≤ n))
  · rw [if_pos hb] at h
    exact ⟨hb, (Option.some.inj h).symm⟩
  · simp [hb] at h

/-- Every completed call of `SetAdptArrayAt` on a live array with `index ≥ 0` is of one of
three kinds: the growth allocation failed; the slot was inside the storage; the storage was
replaced by a larger block first. In the last two the base array `b` is what `storeAt`
worked on. -/
theorem SetAdptArrayAt_cases {W : Type} (a : AdptArray_ W) (index : Int) (elem : PElement)
    (new_data : Option (Nat → PElement)) (env : Env W) (out : Ret W Result)
    (h0 : 0 ≤ index)
    (h : SetAdptArrayAt (some a) index elem new_data env = some out) :
    (a.capacity ≤ index ∧ new_data = none ∧
        out = { val := Result.FAIL, arr := some a, env := env }) ∨
    (index < a.capacity ∧ storeAt a index elem env = some out) ∨
    (∃ g b, a.capacity ≤ index ∧ new_data = some g ∧
        growTo a (wrap32 (wrap32 (index + 1) * 2)) g = some b ∧
        storeAt b index elem env = some out) := by
  unfold SetAdptArrayAt at h
  have hn : ¬ index < 0 := by omega
  simp only [hn, if_false] at h
  by_cases hc : index ≥ a.capacity
  · simp only [hc, if_true] at h
    cases new_data with
    | none =>
      left
      simp only [Option.some.injEq] at h
      exact ⟨hc, rfl, h.symm⟩
    | some g =>
      right; right
      simp only at h
      cases hg : growTo a (wrap32 (wrap32 (index + 1) * 2)) g with
      | none => simp [hg] at h
      | some b =>
        simp only [hg] at h
        exact ⟨g, b, hc, rfl, hg, h⟩
  · right; left
    simp only [hc, if_false] at h
    exact ⟨by omega, h⟩

/-- A completed call of `SetAdptArrayAt` with `index ≥ 0` either stopped at the failed growth
allocation or is the outcome of lines 94-104 on its base array. -/
theorem SetAdptArrayAt_outcome {W : Type} (a : AdptArray_ W) (index : Int) (elem : PElement)
    (new_data : Option (Nat → PElement)) (env : Env W) (out : Ret W Result)
    (h0 : 0 ≤ index)
    (h : SetAdptArrayAt (some a) index elem new_data env = some out) :
    (a.capacity ≤ index ∧ new_data = none ∧
        out = { val := Result.FAIL, arr := some a, env := env }) ∨
    (∃ b, StoreBase a index new_data b ∧ index < b.capacity ∧
        out = storeOutcome b index elem env) := by
  rcases SetAdptArrayAt_cases a index elem new_data env out h0 h with h1 | ⟨hc, hs⟩ | ⟨g, b, hc, hn, hg, hs⟩
  · exact Or.inl h1
  · right
    refine ⟨a, Or.inl ⟨hc, rfl⟩, hc, ?_⟩
    rw [storeAt_eq a index elem env h0 hc] at hs
    exact (Option.some.inj hs).symm
  · right
    have hb := storeAt_isSome b index elem env out hs
    obtain ⟨hm, hbe⟩ := growTo_eq a _ g b hg
    refine ⟨b, Or.inr ⟨g, hn, hc, ⟨h0, hm⟩, hbe⟩, hb.2, ?_⟩
    rw [storeAt_eq b index elem env h0 hb.2] at hs
    exact (Option.some.inj hs).symm

/-- What the base array shares with the array the call was made on. -/
theorem StoreBase.facts {W : Type} {a b : AdptArray_ W} {index : Int}
    {new_data : Option (Nat → PElement)} (hb : StoreBase a index new_data b) :
    b.size = a.size ∧ b.copy_func = a.copy_func ∧ b.del_func = a.del_func ∧
    b.print_func = a.print_func ∧ (∀ k : Nat, (k : Int) < a.size → b.data k = a.data k) ∧
    (index < a.capacity → b = a) ∧
    (a.capacity ≤ index → b.capacity = wrap32 (wrap32 (index + 1) * 2) ∧ a.size ≤ index) := by
  rcases hb with ⟨hc, rfl⟩ | ⟨g, _, hc, hm, rfl⟩
  · refine ⟨rfl, rfl, rfl, rfl, fun _ _ => rfl, fun _ => rfl, fun h => ?_⟩
    omega
  · refine ⟨rfl, rfl, rfl, rfl, fun k hk => ?_, fun h => ?_, fun _ => ⟨rfl, ?_⟩⟩
    · simp [hk]
    · omega
    · omega

/-- A slot index that lines 94-104 could work on is below `INT_MAX`: `index + 1` is exact. -/
theorem StoreBase.wrap_succ {W : Type} {a b : AdptArray_ W} {index : Int}
    {new_data : Option (Nat → PElement)} (hb : StoreBase a index new_data b)
    (h0 : 0 ≤ index) (hlt : index < b.capacity) (hcap : IsInt a.capacity) :
    wrap32 (index + 1) = index + 1 := by
  have hmax : index + 1 ≤ INT_MAX := by
    by_cases hc : index < a.capacity
    · have := hcap.2
      omega
    · have hc' : a.capacity ≤ index := by omega
      have := (hb.facts.2.2.2.2.2.2 hc').1
      have := (wrap32_isInt (wrap32 (index + 1) * 2)).2
      omega
  apply wrap32_of_isInt
  unfold IsInt INT_MIN
  unfold INT_MAX at hmax ⊢
  omega

theorem SetAdptArrayAt_neg {W : Type} (a : AdptArray_ W) (index : Int) (elem : PElement)
    (new_data : Option (Nat → PElement)) (env : Env W) (h : index < 0) :
    SetAdptArrayAt (some a) index elem new_data env
      = some { val := Result.FAIL, arr := some a, env := env } := by
  simp [SetAdptArrayAt, h]

/-- C1: Set-then-Get round trip. Whenever `SetAdptArrayAt(a, index, elem)` returns `SUCCESS`,
slot `index` holds a non-null duplicate that `copy_func` returned for `elem` in that call
(the last logged invocation), and the `GetAdptArrayAt(a, index)` that follows returns
`copy_func` applied to that stored duplicate, leaving the array as it is. For every
transitive notion `R` of element equality under which `copy_func` returns an element equal to
its argument, the element returned by Get is equal to `elem`. -/
theorem set_get_round_trip {W : Type} (a : AdptArray_ W) (index : Int) (elem : PElement)
    (new_data : Option (Nat → PElement)) (env : Env W) (a' : AdptArray_ W) (env' : Env W)
    (hcap : IsInt a.capacity)
    (hset : SetAdptArrayAt (some a) index elem new_data env
      = some { val := Result.SUCCESS, arr := some a', env := env' }) :
    a'.data index.toNat ≠ none ∧
    (∃ w, a'.data index.toNat = (a.copy_func elem w).1) ∧
    env'.calls.getLast? = some (Event.copy elem (a'.data index.toNat)) ∧
    GetAdptArrayAt (some a') index env'
      = some { val := (a.copy_func (a'.data index.toNat) env'.world).1,
               arr := some a',
               env := { world := (a.copy_func (a'.data index.toNat) env'.world).2,
                        calls := env'.calls ++ [Event.copy (a'.data index.toNat)
                          (a.copy_func (a'.data index.toNat) env'.world).1] } } ∧
    ∀ R : PElement → PElement → Prop, (∀ x y z, R x y → R y z → R x z) →
      (∀ x w, R (a.copy_func x w).1 x) →
      R (a.copy_func (a'.data index.toNat) env'.world).1 elem := by
  have h0 : 0 ≤ index := by
    by_contra hneg
    have hlt : index < 0 := by omega
    simp [SetAdptArrayAt, hlt] at hset
  rcases SetAdptArrayAt_outcome a index elem new_data env _ h0 hset with ⟨_, _, hf⟩ | ⟨b, hb, hlt, ho⟩
  · simp at hf
  · obtain ⟨hsz, hcf, _, _, _, hsame, hgrow⟩ := hb.facts
    simp only [storeOutcome, Ret.mk.injEq, Option.some.injEq] at ho
    obtain ⟨hval, harr, henv⟩ := ho
    have hdup : (callCopy b elem (afterRelease b index env)).1 ≠ none := by
      intro hd
      simp [hd] at hval
    -- the index is below `INT_MAX`, so `index + 1` does not wrap
    have hmax : index + 1 ≤ INT_MAX := by
      by_cases hc : index < a.capacity
      · have := hcap.2
        omega
      · have hc' : a.capacity ≤ index := by omega
        have := (hgrow hc').1
        have := (wrap32_isInt (wrap32 (index + 1) * 2)).2
        omega
    have hw : wrap32 (index + 1) = index + 1 := by
      apply wrap32_of_isInt
      unfold IsInt INT_MIN
      unfold INT_MAX at hmax ⊢
      omega
    subst harr
    subst henv
    have hslot : (if index.toNat = index.toNat
        then (callCopy b elem (afterRelease b index env)).1 else b.data index.toNat)
        = (callCopy b elem (afterRelease b index env)).1 := by simp
    simp only [hslot]
    have hcc : (callCopy b elem (afterRelease b index env)).1
        = (a.copy_func elem (afterRelease b index env).world).1 := by
      simp [callCopy, hcf]
    refine ⟨hdup, ⟨_, hcc⟩, ?_, ?_, ?_⟩
    · simp [callCopy]
    · unfold GetAdptArrayAt
      have hn0 : ¬ index < 0 := by omega
      have hsize : ¬ index ≥ (if (callCopy b elem (afterRelease b index env)).1 ≠ none
          ∧ index ≥ b.size then wrap32 (index + 1) else b.size) := by
        by_cases hs : index ≥ b.size
        · simp only [hdup, hs, ne_eq, not_false_eq_true, and_self, if_true, hw]
          omega
        · simp [hs]
      simp only [hn0, hsize, or_self, if_false, hlt, if_true, hslot, hdup]
      simp [callCopy, hcf]
    · intro R htrans hR
      have h1 := hR (callCopy b elem (afterRelease b index env)).1
        (callCopy b elem (afterRelease b index env)).2.world
      have h2 := hR elem (afterRelease b index env).world
      rw [← hcc] at h2
      exact htrans _ _ _ h1 h2

theorem set_get_round_trip_witness :
    CreateAdptArray sampleCopy sampleDel samplePrint true (some zeroBlock)
      = some (sampleArray zeroBlock) ∧
    (∃ a' env', SetAdptArrayAt (some (sampleArray zeroBlock)) 0 (some 7) none env0
        = some { val := Result.SUCCESS, arr := some a', env := env' } ∧
      (GetAdptArrayAt (some a') 0 env').map Ret.val = some (some 7)) ∧
    (∃ a' env', SetAdptArrayAt (some (sampleArray zeroBlock)) 9 (some 7) none env0
        = some { val := Result.SUCCESS, arr := some a', env := env' } ∧
      (GetAdptArrayAt (some a') 9 env').map Ret.val = some (some 7)) ∧
    (∃ a' env', SetAdptArrayAt (some (sampleArray zeroBlock)) 1000 (some 7) (some zeroBlock) env0
        = some { val := Result.SUCCESS, arr := some a', env := env' } ∧
      (GetAdptArrayAt (some a') 1000 env').map Ret.val = some (some 7)) := by
  have hI : IsInt (sampleArray zeroBlock).capacity := by
    unfold IsInt
    exact ⟨by decide, by decide⟩
  refine ⟨rfl, ⟨_, _, rfl, ?_⟩, ⟨_, _, rfl, ?_⟩, ⟨_, _, rfl, ?_⟩⟩
  · rw [(set_get_round_trip (sampleArray zeroBlock) 0 (some 7) none env0 _ _ hI rfl).2.2.2.1]
    rfl
  · rw [(set_get_round_trip (sampleArray zeroBlock) 9 (some 7) none env0 _ _ hI rfl).2.2.2.1]
    rfl
  · rw [(set_get_round_trip (sampleArray zeroBlock) 1000 (some 7) (some zeroBlock) env0 _ _ hI rfl).2.2.2.1]
    rfl

/-- C2: whenever `SetAdptArrayAt(a, index, elem)` returns `SUCCESS`, `GetAdptArraySize`
afterwards is the maximum of the size before the call and `index + 1`. -/
theorem set_size_max {W : Type} (a : AdptArray_ W) (index : Int) (elem : PElement)
    (new_data : Option (Nat → PElement)) (env : Env W) (a' : AdptArray_ W) (env' : Env W)
    (hcap : IsInt a.capacity)
    (hset : SetAdptArrayAt (some a) index elem new_data env
      = some { val := Result.SUCCESS, arr := some a', env := env' }) :
    GetAdptArraySize (some a') = max (GetAdptArraySize (some a)) (index + 1) := by
  have h0 : 0 ≤ index := by
    by_contra hneg
    have hlt : index < 0 := by omega
    simp [SetAdptArrayAt, hlt] at hset
  rcases SetAdptArrayAt_outcome a index elem new_data env _ h0 hset with ⟨_, _, hf⟩ | ⟨b, hb, hlt, ho⟩
  · simp at hf
  · have hw := hb.wrap_succ h0 hlt hcap
    have hsz := hb.facts.1
    simp only [storeOutcome, Ret.mk.injEq, Option.some.injEq] at ho
    obtain ⟨hval, harr, -⟩ := ho
    have hdup : (callCopy b elem (afterRelease b index env)).1 ≠ none := by
      intro hd
      simp [hd] at hval
    subst harr
    simp only [GetAdptArraySize, hw, hsz]
    by_cases hs : index ≥ a.size
    · simp only [hdup, hs, ne_eq, not_false_eq_true, and_self, if_true]
      rw [max_eq_right (by omega)]
    · simp only [hs, and_false, if_false]
      rw [max_eq_left (by omega)]

theorem set_size_max_witness :
    SetAdptArrayAt (some (sampleArray zeroBlock)) 25 (some 7) (some zeroBlock) env0
      = some (storeOutcome { sampleArray zeroBlock with capacity := 52 } 25 (some 7) env0) ∧
    GetAdptArraySize (storeOutcome { sampleArray zeroBlock with capacity := 52 }
      25 (some 7) env0).arr = max 0 (25 + 1) :=
  ⟨rfl, set_size_max (sampleArray zeroBlock) 25 (some 7) (some zeroBlock) env0 _ _
    ⟨by decide, by decide⟩ rfl⟩

/-- C5: failed growth is atomic. When `index` is at or beyond the capacity and the
allocation of the new storage fails, `SetAdptArrayAt` returns `FAIL`; the array (size,
capacity, every slot) and the environment (no call of `copy_func` or `del_func` is logged,
the world is untouched) are exactly as before. -/
theorem set_growth_failure_atomic {W : Type} (a : AdptArray_ W) (index : Int)
    (elem : PElement) (env : Env W) (hc : a.capacity ≤ index) :
    SetAdptArrayAt (some a) index elem none env
      = some { val := Result.FAIL, arr := some a, env := env } := by
  by_cases hn : index < 0
  · exact SetAdptArrayAt_neg a index elem none env hn
  · have hge : index ≥ a.capacity := hc
    simp [SetAdptArrayAt, hn, hge]

theorem set_growth_failure_atomic_witness :
    sampleArray3.capacity ≤ 25 ∧
    SetAdptArrayAt (some sampleArray3) 25 (some 8) none env0
      = some { val := Result.FAIL, arr := some sampleArray3, env := env0 } :=
  ⟨by decide, set_growth_failure_atomic sampleArray3 25 (some 8) env0 (by decide)⟩

/-- C6: invalid arguments are rejected without effect. With a null handle (any index), or
with a negative index on a live array, `SetAdptArrayAt` returns `FAIL`, the array is as it
was and the environment is untouched (neither `copy_func` nor `del_func` is called). -/
theorem set_invalid_arguments {W : Type} (index : Int) (elem : PElement)
    (new_data : Option (Nat → PElement)) (env : Env W) :
    SetAdptArrayAt (none : PAdptArray W) index elem new_data env
      = some { val := Result.FAIL, arr := none, env := env } ∧
    ∀ a : AdptArray_ W, index < 0 →
      SetAdptArrayAt (some a) index elem new_data env
        = some { val := Result.FAIL, arr := some a, env := env } :=
  ⟨rfl, fun a h => SetAdptArrayAt_neg a index elem new_data env h⟩

theorem set_invalid_arguments_witness :
    (-1 : Int) < 0 ∧
    SetAdptArrayAt (some sampleArray3) (-1) (some 8) (some staleBlock) env0
      = some { val := Result.FAIL, arr := some sampleArray3, env := env0 } :=
  ⟨by decide,
    (set_invalid_arguments (-1) (some 8) (some staleBlock) env0).2 sampleArray3 (by decide)⟩

/-- The call completes, with a result, whenever the slot is inside the storage, or the array
satisfies `0 ≤ size ≤ capacity`, the growth allocation succeeds and `(index + 1) * 2` fits
an `int`. -/
theorem SetAdptArrayAt_completes {W : Type} (a : AdptArray_ W) (index : Int) (elem : PElement)
    (new_data : Option (Nat → PElement)) (env : Env W) (h0 : 0 ≤ index)
    (halloc : a.capacity ≤ index → new_data ≠ none)
    (hr : index < a.capacity ∨
      (0 ≤ a.size ∧ a.size ≤ a.capacity ∧ index + 1 ≤ 1073741823)) :
    ∃ b, StoreBase a index new_data b ∧ index < b.capacity ∧
      SetAdptArrayAt (some a) index elem new_data env
        = some (storeOutcome b index elem env) := by
  have hn : ¬ index < 0 := by omega
  by_cases hc : index < a.capacity
  · refine ⟨a, Or.inl ⟨hc, rfl⟩, hc, ?_⟩
    have hge : ¬ index ≥ a.capacity := by omega
    simp only [SetAdptArrayAt, hn, hge, if_false]
    rw [storeAt_eq a index elem env h0 hc]
    rfl
  · have hge : index ≥ a.capacity := by omega
    rcases hr with h | ⟨hs0, hs1, hsmall⟩
    · omega
    · have hnc := new_capacity_of_small index h0 hsmall
      cases hnd : new_data with
      | none => exact absurd hnd (halloc hge)
      | some g =>
        have hm : 0 ≤ a.size ∧ (a.size = 0 ∨ (a.size ≤ a.capacity ∧
            a.size ≤ wrap32 (wrap32 (index + 1) * 2))) := by
          refine ⟨hs0, Or.inr ⟨hs1, ?_⟩⟩
          rw [hnc]
          omega
        have hlt : index < wrap32 (wrap32 (index + 1) * 2) := by
          rw [hnc]
          omega
        refine ⟨{ a with data := fun k => if (k : Int) < a.size then a.data k else g k,
                         capacity := wrap32 (wrap32 (index + 1) * 2) },
          Or.inr ⟨g, rfl, hge, ⟨h0, hm⟩, rfl⟩, hlt, ?_⟩
        simp only [SetAdptArrayAt, hn, hge, if_false, if_true, growTo, if_pos hm]
        rw [storeAt_eq _ index elem env h0 hlt]
        rfl

/-- What a completed `SetAdptArrayAt` that got past its growth step leaves: slot `index`
holds what the `copy_func` call of this very call returned (the last call logged). When that
is `NULL` the result is `FAIL`, `GetAdptArrayAt(a, index)` returns absent, and an element
the slot held before has been handed to `del_func` first and is not restored; when it is
not `NULL` the result is `SUCCESS`. -/
theorem completed_set_after_copy {W : Type} (a : AdptArray_ W) (index : Int)
    (elem : PElement) (new_data : Option (Nat → PElement)) (env : Env W) (out : Ret W Result)
    (h0 : 0 ≤ index) (halloc : a.capacity ≤ index → new_data ≠ none)
    (hset : SetAdptArrayAt (some a) index elem new_data env = some out) :
    ∃ a', out.arr = some a' ∧
      out.env.calls.getLast? = some (Event.copy elem (a'.data index.toNat)) ∧
      (a'.data index.toNat ≠ none → out.val = Result.SUCCESS) ∧
      (a'.data index.toNat = none →
        out.val = Result.FAIL ∧
        (∀ e, GetAdptArrayAt (some a') index e
          = some { val := none, arr := some a', env := e }) ∧
        (index < a.capacity → a.data index.toNat ≠ none →
          out.env.calls
            = env.calls ++ [Event.del (a.data index.toNat), Event.copy elem none])) := by
  rcases SetAdptArrayAt_outcome a index elem new_data env _ h0 hset with
    ⟨hc, hn, _⟩ | ⟨b, hb, hlt, ho⟩
  · exact absurd hn (halloc hc)
  · obtain ⟨_, _, _, _, _, hsame, _⟩ := hb.facts
    subst ho
    refine ⟨_, rfl, ?_, ?_, ?_⟩
    · simp [storeOutcome, callCopy]
    · intro hd
      simp only [storeOutcome, if_true] at hd
      simp [storeOutcome, hd]
    · intro hd
      simp only [storeOutcome, if_true] at hd
      refine ⟨by simp [storeOutcome, hd], fun e => ?_, fun hc hocc => ?_⟩
      · simp only [storeOutcome, hd]
        unfold GetAdptArrayAt
        by_cases hs : index < 0 ∨ index ≥ b.size
        · simp [hs]
        · simp [hs, hlt]
      · have hba := hsame hc
        subst hba
        have hd' : (b.copy_func elem (b.del_func (b.data index.toNat) env.world)).1 = none := by
          simpa [callCopy, afterRelease, hocc, callDel] using hd
        simp [storeOutcome, callCopy, afterRelease, hocc, callDel, hd']

/-- C7 (the code at the failing input): with a failing `copy_func` the call at `INT_MAX`
does not return `FAIL`. On a fresh array whose `copy_func` fails on the element,
`SetAdptArrayAt(a, INT_MAX, e)` computes the new capacity `(INT_MAX + 1) * 2`, which is 0 at
32 bits; `malloc` returns a block for that request, the growth step sets the capacity to 0,
and line 94 reads slot `INT_MAX` outside the block before `copy_func` is ever called: the
call has no defined outcome. -/
theorem set_with_failing_copy_out_of_bounds :
    Reachable fussyArray ∧
    (∀ w, (fussyArray.copy_func (some 2) w).1 = none) ∧
    (0 : Int) ≤ 2147483647 ∧ (2147483647 : Int) ≤ INT_MAX ∧
    growTo fussyArray (wrap32 (wrap32 (2147483647 + 1) * 2)) zeroBlock
      = some { fussyArray with
                 data := fun k => if (k : Int) < 0 then zeroBlock k else zeroBlock k,
                 capacity := 0 } ∧
    storeAt { fussyArray with
                data := fun k => if (k : Int) < 0 then zeroBlock k else zeroBlock k,
                capacity := 0 } 2147483647 (some 2) env0 = none ∧
    SetAdptArrayAt (some fussyArray) 2147483647 (some 2) (some zeroBlock) env0 = none :=
  ⟨Reachable.create fussyCopy sampleDel samplePrint zeroBlock fussyArray rfl,
    fun _ => rfl, by decide, by decide, rfl, rfl, rfl⟩

/-- The capacity after a completed call: after every completed
`SetAdptArrayAt(a, index, elem)` with `index ≥ 0` whose allocation (if one was needed)
succeeded, the capacity is exactly `(index + 1) * 2` when `index` was at or beyond the
previous capacity, and the previous capacity otherwise. The call does complete whenever slot
`index` is inside the storage, or `0 ≤ size ≤ capacity` and `(index + 1) * 2` fits an
`int`. -/
theorem completed_set_capacity {W : Type} (a : AdptArray_ W) (index : Int)
    (elem : PElement) (new_data : Option (Nat → PElement)) (env : Env W)
    (h0 : 0 ≤ index) (halloc : a.capacity ≤ index → new_data ≠ none) :
    (∀ out, SetAdptArrayAt (some a) index elem new_data env = some out →
      ∃ a', out.arr = some a' ∧
        a'.capacity = if a.capacity ≤ index then (index + 1) * 2 else a.capacity) ∧
    ((index < a.capacity ∨ (0 ≤ a.size ∧ a.size ≤ a.capacity ∧ index + 1 ≤ 1073741823)) →
      ∃ out, SetAdptArrayAt (some a) index elem new_data env = some out) := by
  constructor
  · intro out hset
    rcases SetAdptArrayAt_outcome a index elem new_data env _ h0 hset with ⟨hc, hn, _⟩ | ⟨b, hb, hlt, ho⟩
    · exact absurd hn (halloc hc)
    · obtain ⟨_, _, _, _, _, hsame, hgrow⟩ := hb.facts
      subst ho
      refine ⟨_, rfl, ?_⟩
      by_cases hc : a.capacity ≤ index
      · simp only [storeOutcome, hc, if_true]
        have hbc := (hgrow hc).1
        rw [hbc] at hlt ⊢
        exact (new_capacity_exact index h0 hlt).1
      · simp only [storeOutcome, hc, if_false]
        rw [hsame (by omega)]
  · intro hr
    obtain ⟨b, _, _, hb⟩ := SetAdptArrayAt_completes a index elem new_data env h0 halloc hr
    exact ⟨_, hb⟩

/-- C9 (the code at the failing input): the capacity after growth is not `(index + 1) * 2`
at `INT_MAX`. On a fresh array (capacity 10), `SetAdptArrayAt(a, INT_MAX, x)` finds
`index ≥ capacity` and computes `(INT_MAX + 1) * 2`, whose value 4294967296 is 0 at 32
bits; `malloc` returns a block for that request and line 92 stores 0 in `capacity`. The
slot access of line 94 then lies outside the block. -/
theorem growth_policy_overflow_at_int_max :
    Reachable (sampleArray zeroBlock) ∧
    (0 : Int) ≤ 2147483647 ∧ (2147483647 : Int) ≤ INT_MAX ∧
    (sampleArray zeroBlock).capacity ≤ 2147483647 ∧
    ((2147483647 : Int) + 1) * 2 = 4294967296 ∧
    (∃ b, growTo (sampleArray zeroBlock) (wrap32 (wrap32 (2147483647 + 1) * 2)) zeroBlock
        = some b ∧ b.capacity = 0 ∧ b.capacity ≠ ((2147483647 : Int) + 1) * 2) ∧
    SetAdptArrayAt (some (sampleArray zeroBlock)) 2147483647 (some 7) (some zeroBlock) env0
      = none :=
  ⟨Reachable.create sampleCopy sampleDel samplePrint zeroBlock (sampleArray zeroBlock) rfl,
    by decide, by decide, by decide, by decide, ⟨_, rfl, rfl, by decide⟩, rfl⟩

/-- What `GetAdptArrayAt` does. On a null handle it returns `NULL`. On an array with
`size ≤ capacity` it returns `NULL` when `index < 0`, or `index ≥ size`, or the content of
slot `index` is `NULL`, and otherwise the result of `copy_func` on the content of the slot.
In every case the array is unchanged and the only call that can have been made is that one
`copy_func` call: `del_func` is not called. -/
theorem GetAdptArrayAt_eq {W : Type} (index : Int) (env : Env W) :
    GetAdptArrayAt (none : PAdptArray W) index env
      = some { val := none, arr := none, env := env } ∧
    ∀ a : AdptArray_ W, a.size ≤ a.capacity →
      GetAdptArrayAt (some a) index env
        = some (if index < 0 ∨ index ≥ a.size ∨ a.data index.toNat = none
            then { val := none, arr := some a, env := env }
            else { val := (a.copy_func (a.data index.toNat) env.world).1,
                   arr := some a,
                   env := { world := (a.copy_func (a.data index.toNat) env.world).2,
                            calls := env.calls ++ [Event.copy (a.data index.toNat)
                              (a.copy_func (a.data index.toNat) env.world).1] } }) := by
  refine ⟨rfl, fun a hinv => ?_⟩
  unfold GetAdptArrayAt
  simp only
  by_cases h1 : index < 0 ∨ index ≥ a.size
  · have h2 : index < 0 ∨ index ≥ a.size ∨ a.data index.toNat = none := by
      rcases h1 with h | h
      · exact Or.inl h
      · exact Or.inr (Or.inl h)
    rw [if_pos h2, if_pos h1]
  · have hc : index < a.capacity := by omega
    rw [if_neg h1, if_pos hc]
    by_cases hd : a.data index.toNat = none
    · have h2 : index < 0 ∨ index ≥ a.size ∨ a.data index.toNat = none :=
        Or.inr (Or.inr hd)
      rw [if_pos h2, if_pos hd]
    · have h2 : ¬ (index < 0 ∨ index ≥ a.size ∨ a.data index.toNat = none) := by
        intro h
        rcases h with h | h | h
        · exact h1 (Or.inl h)
        · exact h1 (Or.inr h)
        · exact hd h
      rw [if_neg h2, if_neg hd]
      rfl

/-- Every array a program can hold has `0 ≤ size ≤ capacity`, with `capacity` an `int`. -/
theorem Reachable.bounds {W : Type} {a : AdptArray_ W} (h : Reachable a) :
    0 ≤ a.size ∧ a.size ≤ a.capacity ∧ IsInt a.capacity := by
  induction h with
  | create copy_func del_func print_func g a h =>
    simp [CreateAdptArray] at h
    subst h
    refine ⟨le_refl _, ?_, ?_, ?_⟩
    · show (0 : Int) ≤ INITIAL_CAPACITY
      decide
    · show INT_MIN ≤ INITIAL_CAPACITY
      decide
    · show INITIAL_CAPACITY ≤ INT_MAX
      decide
  | set a index elem new_data env out a' _ h harr ih =>
    obtain ⟨h1, h2, h3⟩ := ih
    by_cases hneg : index < 0
    · rw [SetAdptArrayAt_neg a index elem new_data env hneg] at h
      have := Option.some.inj h
      subst this
      have := Option.some.inj harr
      subst this
      exact ⟨h1, h2, h3⟩
    have h0 : 0 ≤ index := by omega
    rcases SetAdptArrayAt_outcome a index elem new_data env _ h0 h with ⟨_, _, hf⟩ | ⟨b, hb, hlt, ho⟩
    · subst hf
      have := Option.some.inj harr
      subst this
      exact ⟨h1, h2, h3⟩
    · have hw := hb.wrap_succ h0 hlt h3
      obtain ⟨hsz, _, _, _, _, hsame, hgrow⟩ := hb.facts
      subst ho
      have := Option.some.inj harr
      subst this
      have hbc : a.size ≤ b.capacity ∧ IsInt b.capacity := by
        by_cases hc : index < a.capacity
        · rw [hsame hc]
          exact ⟨h2, h3⟩
        · have hc' : a.capacity ≤ index := by omega
          rw [(hgrow hc').1]
          rw [(hgrow hc').1] at hlt
          have := (hgrow hc').2
          exact ⟨by omega, wrap32_isInt _⟩
      refine ⟨?_, ?_, hbc.2⟩
      · show (0 : Int) ≤ (if _ then _ else _)
        split
        · rw [hw]
          omega
        · omega
      · show (if _ then _ else _ : Int) ≤ b.capacity
        split
        · rw [hw]
          omega
        · rw [hsz]
          exact hbc.1

/-- C3 (the code at the failing input): gap slots are not empty when `malloc` hands out
storage with stale content. On a fresh array whose storage holds stale words, a successful
`SetAdptArrayAt(a, 5, x)` leaves gap slot 3 holding its stale word, and `GetAdptArrayAt(a, 3)`
returns a copy of it instead of absent. The same happens across growth: on a fresh array,
`SetAdptArrayAt(a, 25, x)` moves to a new block of which only the first `size = 0` slots
are written, and `GetAdptArrayAt(a, 24)` returns a copy of the stale word of slot 24. -/
theorem gap_slots_hold_stale_words :
    CreateAdptArray sampleCopy sampleDel samplePrint true (some staleBlock)
      = some (sampleArray staleBlock) ∧
    SetAdptArrayAt (some (sampleArray staleBlock)) 5 (some 7) none env0
      = some { val := Result.SUCCESS, arr := some staleArray5,
               env := { world := 1, calls := [Event.copy (some 7) (some 7)] } } ∧
    GetAdptArrayAt (some staleArray5) 3 env0
      = some { val := some 1003, arr := some staleArray5,
               env := { world := 1, calls := [Event.copy (some 1003) (some 1003)] } } ∧
    CreateAdptArray sampleCopy sampleDel samplePrint true (some zeroBlock)
      = some (sampleArray zeroBlock) ∧
    SetAdptArrayAt (some (sampleArray zeroBlock)) 25 (some 7) (some staleBlock) env0
      = some { val := Result.SUCCESS, arr := some grownArray25,
               env := { world := 1, calls := [Event.copy (some 7) (some 7)] } } ∧
    GetAdptArrayAt (some grownArray25) 24 env0
      = some { val := some 1024, arr := some grownArray25,
               env := { world := 1, calls := [Event.copy (some 1024) (some 1024)] } } :=
  ⟨rfl, rfl, rfl, rfl, rfl, rfl⟩

/-- Gap slots on cleared storage: when every slot from
`size` on holds `NULL` and the block of the growth step (if any) is all `NULL`, the gap
slots opened by a successful `SetAdptArrayAt(a, index, elem)` all read as absent. -/
theorem gap_slots_absent_on_cleared_storage {W : Type} (a : AdptArray_ W) (index : Int)
    (elem : PElement) (new_data : Option (Nat → PElement)) (env : Env W)
    (a' : AdptArray_ W) (env' : Env W)
    (hclean : NullBeyondSize a)
    (hzero : ∀ g, new_data = some g → ∀ k, g k = none)
    (hset : SetAdptArrayAt (some a) index elem new_data env
      = some { val := Result.SUCCESS, arr := some a', env := env' }) :
    ∀ j : Nat, a.size ≤ (j : Int) → (j : Int) < index →
      ∀ e : Env W, GetAdptArrayAt (some a') j e
        = some { val := none, arr := some a', env := e } := by
  intro j hj1 hj2 e
  have h0 : 0 ≤ index := by omega
  rcases SetAdptArrayAt_outcome a index elem new_data env _ h0 hset with ⟨_, _, hf⟩ | ⟨b, hb, hlt, ho⟩
  · simp at hf
  · have hbj : b.data j = none := by
      rcases hb with ⟨_, rfl⟩ | ⟨g, hg, _, _, rfl⟩
      · exact hclean j hj1
      · have hnot : ¬ ((j : Int) < a.size) := by omega
        simp only [hnot, if_false]
        exact hzero g hg j
    simp only [storeOutcome, Ret.mk.injEq, Option.some.injEq] at ho
    obtain ⟨-, harr, -⟩ := ho
    subst harr
    have hjn : j ≠ index.toNat := by omega
    have hjc : (j : Int) < b.capacity := by omega
    unfold GetAdptArrayAt
    simp only [Int.toNat_ofNat, hjn, if_false, hbj, hjc, if_true]
    split <;> simp only [ite_self]

/-- C8 (the code at the failing input): a failing `copy_func` does modify the array. On a
live array whose slot 3 holds an element, `SetAdptArrayAt(a, 3, y)` with `copy_func` failing
on `y` returns `FAIL` after it handed the stored element to `del_func` and overwrote slot 3
with `NULL`: the slot content differs from the one before the call. -/
theorem set_copy_failure_modifies_array :
    CreateAdptArray fussyCopy sampleDel samplePrint true (some zeroBlock)
      = some { sampleArray zeroBlock with copy_func := fussyCopy } ∧
    SetAdptArrayAt (some { sampleArray zeroBlock with copy_func := fussyCopy })
        3 (some 7) none env0
      = some { val := Result.SUCCESS, arr := some fussyArray3,
               env := { world := 1, calls := [Event.copy (some 7) (some 7)] } } ∧
    (fussyCopy (some 2) 1).1 = none ∧
    SetAdptArrayAt (some fussyArray3) 3 (some 2) none
        { world := 1, calls := [Event.copy (some 7) (some 7)] }
      = some { val := Result.FAIL,
               arr := some { fussyArray3 with
                 data := fun k => if k = 3 then none else fussyArray3.data k },
               env := { world := 0,
                        calls := [Event.copy (some 7) (some 7), Event.del (some 7),
                                  Event.copy (some 2) none] } } ∧
    fussyArray3.data 3 = some 7 :=
  ⟨rfl, rfl, rfl, rfl, rfl⟩

/-! ## The loop of `DeleteAdptArray` and `PrintDB` -/

theorem forSlots_fold_none {W : Type} (a : AdptArray_ W)
    (call : AdptArray_ W → PElement → Env W → Env W) (l : List Nat) :
    l.foldl
      (fun (acc : Option (Env W)) (i : Nat) =>
        match acc with
        | none => none
        | some e =>
          if (i : Int) < a.capacity then
            (if a.data i ≠ none then some (call a (a.data i) e) else some e)
          else none)
      none = none := by
  induction l with
  | nil => rfl
  | cons i l ih => simpa using ih

theorem forSlots_fold {W : Type} (a : AdptArray_ W)
    (call : AdptArray_ W → PElement → Env W → Env W) (l : List Nat)
    (hl : ∀ i ∈ l, (i : Int) < a.capacity) (env : Env W) :
    l.foldl
      (fun (acc : Option (Env W)) (i : Nat) =>
        match acc with
        | none => none
        | some e =>
          if (i : Int) < a.capacity then
            (if a.data i ≠ none then some (call a (a.data i) e) else some e)
          else none)
      (some env)
    = some ((l.filter (fun i => a.data i ≠ none)).foldl
        (fun e i => call a (a.data i) e) env) := by
  induction l generalizing env with
  | nil => rfl
  | cons i l ih =>
    have hi : (i : Int) < a.capacity := hl i (List.mem_cons_self i l)
    have hl' : ∀ j ∈ l, (j : Int) < a.capacity := fun j hj => hl j (List.mem_cons_of_mem i hj)
    by_cases hd : a.data i = none
    · simp only [List.foldl_cons, hi, if_true, hd, ne_eq, not_true_eq_false, if_false,
        List.filter_cons, decide_False, Bool.false_eq_true]
      simpa [hd] using ih hl' env
    · simp only [List.foldl_cons, hi, if_true, hd, ne_eq, not_false_eq_true,
        List.filter_cons, decide_True]
      simpa [hd] using ih hl' (call a (a.data i) env)

/-- On an array with `size ≤ capacity` the loop completes: it applies `call`, in ascending
index order, to the content of every slot below `size` that is not `NULL`. -/
theorem forSlots_eq {W : Type} (a : AdptArray_ W)
    (call : AdptArray_ W → PElement → Env W → Env W) (env : Env W)
    (h : a.size ≤ a.capacity) :
    forSlots a call env
      = some ((heldBelowSize a).foldl (fun e i => call a (a.data i) e) env) := by
  unfold forSlots heldBelowSize
  apply forSlots_fold
  intro i hi
  have := List.mem_range.mp hi
  omega

theorem heldBelowSize_mem {W : Type} (a : AdptArray_ W) (i : Nat) :
    i ∈ heldBelowSize a ↔ ((i : Int) < a.size ∧ a.data i ≠ none) := by
  unfold heldBelowSize
  simp only [List.mem_filter, List.mem_range, decide_eq_true_eq]
  constructor
  · rintro ⟨h1, h2⟩
    exact ⟨by omega, h2⟩
  · rintro ⟨h1, h2⟩
    exact ⟨by omega, h2⟩

theorem heldBelowSize_ascending {W : Type} (a : AdptArray_ W) :
    (heldBelowSize a).Pairwise (fun i j => i < j) := by
  unfold heldBelowSize
  exact List.Pairwise.sublist (List.filter_sublist _) (List.pairwise_lt_range _)

theorem fold_callPrint_calls {W : Type} (a : AdptArray_ W) (l : List Nat) (env : Env W) :
    (l.foldl (fun e i => callPrint a (a.data i) e) env).calls
      = env.calls ++ l.map (fun i => Event.print (a.data i)) := by
  induction l generalizing env with
  | nil => simp
  | cons i l ih =>
    rw [List.foldl_cons, ih]
    simp [callPrint]

theorem fold_callDel_calls {W : Type} (a : AdptArray_ W) (l : List Nat) (env : Env W) :
    (l.foldl (fun e i => callDel a (a.data i) e) env).calls
      = env.calls ++ l.map (fun i => Event.del (a.data i)) := by
  induction l generalizing env with
  | nil => simp
  | cons i l ih =>
    rw [List.foldl_cons, ih]
    simp [callDel]

/-- What `DeleteAdptArray` does on an array with `size ≤ capacity`: it calls `del_func`, in
ascending index order, on the content of every slot below `size` that is not `NULL`. -/
theorem DeleteAdptArray_calls {W : Type} (a : AdptArray_ W) (env : Env W)
    (h : a.size ≤ a.capacity) :
    ∃ e, DeleteAdptArray (some a) env = some e ∧
      e.calls = env.calls ++ (heldBelowSize a).map (fun i => Event.del (a.data i)) := by
  refine ⟨_, forSlots_eq a callDel env h, ?_⟩
  exact fold_callDel_calls a (heldBelowSize a) env

/-- C11 (the code at the failing input): `DeleteAdptArray` hands stale words to `del_func`.
The array made by `CreateAdptArray` on stale storage and one `SetAdptArrayAt(a, 5, x)` holds
one stored element, in slot 5. `DeleteAdptArray` invokes `del_func` six times: on the stale
words of the never-written slots 0..4, then on the stored element. On a null handle it
invokes nothing. -/
theorem delete_releases_stale_words :
    CreateAdptArray sampleCopy sampleDel samplePrint true (some staleBlock)
      = some (sampleArray staleBlock) ∧
    SetAdptArrayAt (some (sampleArray staleBlock)) 5 (some 7) none env0
      = some { val := Result.SUCCESS, arr := some staleArray5,
               env := { world := 1, calls := [Event.copy (some 7) (some 7)] } } ∧
    DeleteAdptArray (some staleArray5) env0
      = some { world := 0,
               calls := [Event.del (some 1000), Event.del (some 1001), Event.del (some 1002),
                         Event.del (some 1003), Event.del (some 1004), Event.del (some 7)] } ∧
    DeleteAdptArray (none : PAdptArray Nat) env0 = some env0 :=
  ⟨rfl, rfl, rfl, rfl⟩

/-- C12 (the code at the failing input): a never-written slot is not found empty. On a fresh
array whose storage holds stale words, `SetAdptArrayAt(a, 3, x)` invokes `del_func` on the
stale word of slot 3 before it copies `x`; the `SetAdptArrayAt(a, 3, y)` that follows invokes
`del_func` on the stored duplicate of `x` before it copies `y`, and `GetAdptArrayAt(a, 3)`
then returns a copy of `y`. The delete trace of the two writes has two entries, the stale
word and the duplicate of `x`. -/
theorem set_releases_stale_word :
    CreateAdptArray sampleCopy sampleDel samplePrint true (some staleBlock)
      = some (sampleArray staleBlock) ∧
    SetAdptArrayAt (some (sampleArray staleBlock)) 3 (some 7) none env0
      = some { val := Result.SUCCESS, arr := some staleArray3,
               env := { world := 1,
                        calls := [Event.del (some 1003), Event.copy (some 7) (some 7)] } } ∧
    SetAdptArrayAt (some staleArray3) 3 (some 8) none
        { world := 1, calls := [Event.del (some 1003), Event.copy (some 7) (some 7)] }
      = some { val := Result.SUCCESS,
               arr := some { staleArray3 with
                 data := fun k => if k = 3 then some 8 else staleArray3.data k },
               env := { world := 1,
                        calls := [Event.del (some 1003), Event.copy (some 7) (some 7),
                                  Event.del (some 7), Event.copy (some 8) (some 8)] } } ∧
    observed (GetAdptArrayAt
        (some { staleArray3 with data := fun k => if k = 3 then some 8 else staleArray3.data k })
        3 env0)
      = some (some 8, { world := 1, calls := [Event.copy (some 8) (some 8)] }) :=
  ⟨rfl, rfl, rfl, rfl⟩

/-- What a call of `SetAdptArrayAt` on a slot inside the storage invokes: `del_func` on the
content of the slot when it is not `NULL`, then `copy_func` on the element; nothing before,
nothing after. -/
theorem SetAdptArrayAt_calls_inside {W : Type} (a : AdptArray_ W) (index : Int)
    (elem : PElement) (new_data : Option (Nat → PElement)) (env : Env W)
    (h0 : 0 ≤ index) (hc : index < a.capacity) :
    ∃ out, SetAdptArrayAt (some a) index elem new_data env = some out ∧
      ((a.data index.toNat ≠ none →
          ∃ r, out.env.calls
            = env.calls ++ [Event.del (a.data index.toNat), Event.copy elem r]) ∧
       (a.data index.toNat = none →
          ∃ r, out.env.calls = env.calls ++ [Event.copy elem r])) := by
  obtain ⟨b, hb, _, hset⟩ :=
    SetAdptArrayAt_completes a index elem new_data env h0 (fun h => by omega) (Or.inl hc)
  have hba : b = a := hb.facts.2.2.2.2.2.1 hc
  subst hba
  refine ⟨_, hset,
    fun hocc => ⟨(callCopy b elem (afterRelease b index env)).1, ?_⟩,
    fun hnull => ⟨(callCopy b elem (afterRelease b index env)).1, ?_⟩⟩
  · simp only [storeOutcome, callCopy, afterRelease, hocc, if_true, callDel, ne_eq,
      not_false_eq_true, List.append_assoc, List.singleton_append]
  · simp only [storeOutcome, callCopy, afterRelease, hnull, ne_eq, not_true_eq_false, if_false]

/-- C13 (the code at the failing input): the slots of a new array are not empty.
`CreateAdptArray` returns `NULL` when either allocation fails and otherwise an array of size
0 and capacity 10 with the three operations bound, whose slots hold whatever `malloc` left
in the block. On stale storage slot 0 holds a non-null word, and the first
`SetAdptArrayAt(a, 0, x)` hands that word to `del_func`. -/
theorem create_leaves_slots_unset :
    (∀ (W : Type) (copy_func : PElement → W → PElement × W) (del_func : PElement → W → W)
        (print_func : PElement → W → W) (g : Nat → PElement),
      CreateAdptArray copy_func del_func print_func true (some g)
        = some { data := g, size := 0, capacity := 10, copy_func := copy_func,
                 del_func := del_func, print_func := print_func } ∧
      CreateAdptArray copy_func del_func print_func true none = none ∧
      (∀ d, CreateAdptArray copy_func del_func print_func false d = none)) ∧
    CreateAdptArray sampleCopy sampleDel samplePrint true (some staleBlock)
      = some (sampleArray staleBlock) ∧
    (sampleArray staleBlock).data 0 = some 1000 ∧
    SetAdptArrayAt (some (sampleArray staleBlock)) 0 (some 7) none env0
      = some { val := Result.SUCCESS,
               arr := some { sampleArray staleBlock with
                 data := fun k => if k = 0 then some 7 else staleBlock k, size := 1 },
               env := { world := 1,
                        calls := [Event.del (some 1000), Event.copy (some 7) (some 7)] } } :=
  ⟨fun _ _ _ _ _ => ⟨rfl, rfl, fun _ => rfl⟩, rfl, rfl, rfl⟩

/-- C15 (the code at the failing input): `GetAdptArraySize` does not count elements. After
`SetAdptArrayAt(a, 5, x)` on a fresh array with zeroed storage the array holds one element,
in slot 5 (every other slot is `NULL`), and `GetAdptArraySize` returns 6. On a null handle
it returns -1. -/
theorem size_counts_gap_slots :
    CreateAdptArray sampleCopy sampleDel samplePrint true (some zeroBlock)
      = some (sampleArray zeroBlock) ∧
    SetAdptArrayAt (some (sampleArray zeroBlock)) 5 (some 7) none env0
      = some { val := Result.SUCCESS, arr := some sampleArray5,
               env := { world := 1, calls := [Event.copy (some 7) (some 7)] } } ∧
    (∀ k, sampleArray5.data k ≠ none ↔ k = 5) ∧
    heldBelowSize sampleArray5 = [5] ∧
    GetAdptArraySize (some sampleArray5) = 6 ∧
    GetAdptArraySize (none : PAdptArray Nat) = -1 := by
  refine ⟨rfl, rfl, fun k => ?_, rfl, rfl, rfl⟩
  unfold sampleArray5
  by_cases hk : k = 5
  · simp [hk]
  · simp [hk]

theorem fold_callPrint_world {W : Type} (a : AdptArray_ W) (l : List Nat) (env : Env W) :
    (l.foldl (fun e i => callPrint a (a.data i) e) env).world
      = l.foldl (fun w i => a.print_func (a.data i) w) env.world := by
  induction l generalizing env with
  | nil => rfl
  | cons i l ih =>
    rw [List.foldl_cons, ih]
    rfl

/-- What `PrintDB` does. On a null handle it makes no call. On an array with
`size ≤ capacity` it completes and leaves the array as it is; it applies `print_func`, in
strictly ascending index order, to the content of exactly the slots below `size` whose
content is not `NULL`: that is what happens to the world and what the log records. -/
theorem PrintDB_eq {W : Type} (env : Env W) :
    PrintDB (none : PAdptArray W) env = some { val := (), arr := none, env := env } ∧
    ∀ a : AdptArray_ W, a.size ≤ a.capacity →
      ∃ e, PrintDB (some a) env = some { val := (), arr := some a, env := e } ∧
        ∃ l : List Nat, l.Pairwise (fun i j => i < j) ∧
          (∀ i, i ∈ l ↔ ((i : Int) < a.size ∧ a.data i ≠ none)) ∧
          e.world = l.foldl (fun w i => a.print_func (a.data i) w) env.world ∧
          e.calls = env.calls ++ l.map (fun i => Event.print (a.data i)) := by
  refine ⟨rfl, fun a h => ?_⟩
  refine ⟨_, ?_, heldBelowSize a, heldBelowSize_ascending a, heldBelowSize_mem a,
    fold_callPrint_world a (heldBelowSize a) env,
    fold_callPrint_calls a (heldBelowSize a) env⟩
  unfold PrintDB
  simp only [forSlots_eq a callPrint env h, Option.map_some']

/-- A completed `SetAdptArrayAt`, whatever its result, leaves a capacity that is at least
what it was; `GetAdptArrayAt` and `PrintDB` hand back the array they were given, and
`GetAdptArraySize` only reads `size`. -/
theorem completed_calls_keep_capacity {W : Type} (a : AdptArray_ W) (index : Int) (elem : PElement)
    (new_data : Option (Nat → PElement)) (env : Env W) :
    (∀ out, SetAdptArrayAt (some a) index elem new_data env = some out →
      ∃ a', out.arr = some a' ∧ a.capacity ≤ a'.capacity) ∧
    (∀ out, GetAdptArrayAt (some a) index env = some out → out.arr = some a) ∧
    (∀ out, PrintDB (some a) env = some out → out.arr = some a) ∧
    GetAdptArraySize (some a) = a.size := by
  refine ⟨fun out hset => ?_, fun out hget => ?_, fun out hp => ?_, rfl⟩
  · by_cases hneg : index < 0
    · rw [SetAdptArrayAt_neg a index elem new_data env hneg] at hset
      rw [← Option.some.inj hset]
      exact ⟨a, rfl, le_refl _⟩
    · have h0 : 0 ≤ index := by omega
      rcases SetAdptArrayAt_outcome a index elem new_data env _ h0 hset with
        ⟨_, _, hf⟩ | ⟨b, hb, hlt, ho⟩
      · rw [hf]
        exact ⟨a, rfl, le_refl _⟩
      · subst ho
        refine ⟨_, rfl, ?_⟩
        show a.capacity ≤ b.capacity
        by_cases hc : index < a.capacity
        · rw [hb.facts.2.2.2.2.2.1 hc]
        · omega
  · unfold GetAdptArrayAt at hget
    simp only at hget
    split at hget
    · rw [← Option.some.inj hget]
    · split at hget
      · split at hget <;> rw [← Option.some.inj hget]
      · exact absurd hget (by simp)
  · unfold PrintDB at hp
    simp only [Option.map_eq_some'] at hp
    obtain ⟨e, _, he⟩ := hp
    rw [← he]

/-! ## Slots at or beyond `size` on cleared storage -/

theorem ReachableCleared.reachable {W : Type} {a : AdptArray_ W} (h : ReachableCleared a) :
    Reachable a := by
  induction h with
  | create copy_func del_func print_func a h =>
    exact Reachable.create copy_func del_func print_func zeroBlock a h
  | set a index elem new_data env out a' _ _ h harr ih =>
    exact Reachable.set a index elem new_data env out a' ih h harr

/-- A completed `SetAdptArrayAt` keeps the slots at or beyond `size` at `NULL` when the
block of its growth step (if any) is all `NULL`. -/
theorem NullBeyondSize.set {W : Type} {a : AdptArray_ W} (hnull : NullBeyondSize a)
    (hcap : IsInt a.capacity) (index : Int) (elem : PElement)
    (new_data : Option (Nat → PElement)) (env : Env W) (out : Ret W Result)
    (a' : AdptArray_ W)
    (hz : ∀ g, new_data = some g → ∀ k, g k = none)
    (h : SetAdptArrayAt (some a) index elem new_data env = some out)
    (harr : out.arr = some a') : NullBeyondSize a' := by
  by_cases hneg : index < 0
  · rw [SetAdptArrayAt_neg a index elem new_data env hneg] at h
    have := Option.some.inj h
    subst this
    have := Option.some.inj harr
    subst this
    exact hnull
  have h0 : 0 ≤ index := by omega
  rcases SetAdptArrayAt_outcome a index elem new_data env _ h0 h with ⟨_, _, hf⟩ | ⟨b, hb, hlt, ho⟩
  · subst hf
    have := Option.some.inj harr
    subst this
    exact hnull
  · have hw := hb.wrap_succ h0 hlt hcap
    have hsz := hb.facts.1
    have hbnull : ∀ k : Nat, a.size ≤ (k : Int) → b.data k = none := by
      intro k hk
      rcases hb with ⟨_, rfl⟩ | ⟨g, hg, _, _, rfl⟩
      · exact hnull k hk
      · have hnot : ¬ ((k : Int) < a.size) := by omega
        simp only [hnot, if_false]
        exact hz g hg k
    subst ho
    have := Option.some.inj harr
    subst this
    intro k hk
    simp only [storeOutcome] at hk ⊢
    by_cases hd : (callCopy b elem (afterRelease b index env)).1 = none
    · simp only [hd, ne_eq, not_true_eq_false, false_and, if_false] at hk
      by_cases hki : k = index.toNat
      · simp only [hki, if_true, hd]
      · simp only [hki, if_false]
        exact hbnull k (by omega)
    · by_cases hs : index ≥ b.size
      · simp only [hd, hs, ne_eq, not_false_eq_true, and_self, if_true, hw] at hk
        have hki : k ≠ index.toNat := by omega
        simp only [hki, if_false]
        exact hbnull k (by omega)
      · simp only [hs, and_false, if_false] at hk
        have hki : k ≠ index.toNat := by omega
        simp only [hki, if_false]
        exact hbnull k (by omega)

/-- On cleared storage every slot that is not `NULL` lies below `size`. -/
theorem ReachableCleared.nullBeyondSize {W : Type} {a : AdptArray_ W}
    (h : ReachableCleared a) : NullBeyondSize a := by
  induction h with
  | create copy_func del_func print_func a h =>
    simp [CreateAdptArray] at h
    subst h
    intro k _
    rfl
  | set a index elem new_data env out a' ha hz h harr ih =>
    exact ih.set ha.reachable.bounds.2.2 index elem new_data env out a' hz h harr

/-! ## Occupied slots -/

theorem ReachableOwning.toReachable {W : Type} {a : AdptArray_ W} {owned : Nat → PElement}
    (h : ReachableOwning a owned) : Reachable a := by
  induction h with
  | create copy_func del_func print_func g a h =>
    exact Reachable.create copy_func del_func print_func g a h
  | set a owned index elem new_data env out a' _ h harr ih =>
    exact Reachable.set a index elem new_data env out a' ih h harr

/-- Every occupied slot lies below `size` and holds the element it owns. -/
theorem ReachableOwning.below_size {W : Type} {a : AdptArray_ W} {owned : Nat → PElement}
    (h : ReachableOwning a owned) :
    ∀ k : Nat, owned k ≠ none → (k : Int) < a.size ∧ a.data k = owned k := by
  induction h with
  | create copy_func del_func print_func g a h =>
    intro k hk
    exact absurd rfl hk
  | set a owned index elem new_data env out a' ha h harr ih =>
    by_cases hneg : index < 0
    · rw [SetAdptArrayAt_neg a index elem new_data env hneg] at h
      have := Option.some.inj h
      subst this
      have := Option.some.inj harr
      subst this
      simp only [ownedAfter, hneg, true_or, if_true]
      exact ih
    have h0 : 0 ≤ index := by omega
    rcases SetAdptArrayAt_outcome a index elem new_data env _ h0 h with
      ⟨hc, hn, hf⟩ | ⟨b, hb, hlt, ho⟩
    · subst hf
      have := Option.some.inj harr
      subst this
      subst hn
      have hcond : index < 0 ∨ (a.capacity ≤ index ∧ (none : Option (Nat → PElement)).isNone = true) :=
        Or.inr ⟨hc, rfl⟩
      simp only [ownedAfter, hcond, if_true]
      exact ih
    · have hw := hb.wrap_succ h0 hlt ha.toReachable.bounds.2.2
      obtain ⟨hsz, _, _, _, hdata, _, _⟩ := hb.facts
      have hcond : ¬ (index < 0 ∨ (a.capacity ≤ index ∧ new_data.isNone = true)) := by
        rintro (h1 | ⟨h1, h2⟩)
        · omega
        · rcases hb with ⟨h3, _⟩ | ⟨g, hg, _, _, _⟩
          · omega
          · rw [hg] at h2
            exact absurd h2 (by simp)
      subst ho
      have := Option.some.inj harr
      subst this
      intro k hk
      simp only [ownedAfter, hcond, if_false, storeOutcome] at hk ⊢
      by_cases hki : k = index.toNat
      · subst hki
        simp only [if_true] at hk ⊢
        refine ⟨?_, trivial⟩
        by_cases hs : index ≥ b.size
        · simp only [hk, hs, ne_eq, not_false_eq_true, and_self, if_true, hw]
          omega
        · simp only [hs, and_false, if_false]
          omega
      · simp only [hki, if_false] at hk ⊢
        obtain ⟨hlt', heq⟩ := ih k hk
        refine ⟨?_, ?_⟩
        · split
          · rename_i hcnd
            rw [hw]
            have := hcnd.2
            omega
          · omega
        · rw [hdata k hlt']
          exact heq

/-- C18: occupied slots lie below `size`. In every state reached from `CreateAdptArray`
through completed calls of `SetAdptArrayAt`, whatever their results (calls that fail because
`copy_func` returned `NULL` or because the growth allocation failed included), every
occupied slot, that is every slot that owns an element stored by `SetAdptArrayAt`, has an
index below `size` and holds that element. Consequently a growth step on such a state,
which carries over the first `size` slots only, drops no stored element: every occupied
slot holds its element in the new storage too. -/
theorem occupied_slots_below_size {W : Type} (a : AdptArray_ W) (owned : Nat → PElement)
    (h : ReachableOwning a owned) :
    (∀ k : Nat, owned k ≠ none → (k : Int) < a.size ∧ a.data k = owned k) ∧
    (∀ (n : Int) (g : Nat → PElement) (b : AdptArray_ W), growTo a n g = some b →
      ∀ k : Nat, owned k ≠ none → b.data k = owned k) := by
  refine ⟨h.below_size, fun n g b hg k hk => ?_⟩
  obtain ⟨hlt, heq⟩ := h.below_size k hk
  obtain ⟨_, hb⟩ := growTo_eq a n g b hg
  subst hb
  simp only [hlt, if_true]
  exact heq

theorem occupied_slots_below_size_witness :
    ReachableOwning grownArray25
      (ownedAfter (sampleArray zeroBlock) (fun _ => none) 25 (some staleBlock) grownArray25) ∧
    ownedAfter (sampleArray zeroBlock) (fun _ => none) 25 (some staleBlock) grownArray25 25
      = some 7 ∧
    ((∀ k : Nat,
        ownedAfter (sampleArray zeroBlock) (fun _ => none) 25 (some staleBlock) grownArray25 k
          ≠ none →
        (k : Int) < grownArray25.size ∧
        grownArray25.data k
          = ownedAfter (sampleArray zeroBlock) (fun _ => none) 25 (some staleBlock)
              grownArray25 k) ∧
     (∀ (n : Int) (g : Nat → PElement) (b : AdptArray_ Nat),
        growTo grownArray25 n g = some b →
        ∀ k : Nat,
          ownedAfter (sampleArray zeroBlock) (fun _ => none) 25 (some staleBlock)
            grownArray25 k ≠ none →
          b.data k
            = ownedAfter (sampleArray zeroBlock) (fun _ => none) 25 (some staleBlock)
                grownArray25 k)) :=
  have hr : ReachableOwning grownArray25
      (ownedAfter (sampleArray zeroBlock) (fun _ => none) 25 (some staleBlock) grownArray25) :=
    ReachableOwning.set (sampleArray zeroBlock) (fun _ => none) 25 (some 7) (some staleBlock)
      env0
      { val := Result.SUCCESS, arr := some grownArray25,
        env := { world := 1, calls := [Event.copy (some 7) (some 7)] } }
      grownArray25
      (ReachableOwning.create sampleCopy sampleDel samplePrint zeroBlock
        (sampleArray zeroBlock) rfl)
      rfl rfl
  ⟨hr, rfl, occupied_slots_below_size grownArray25 _ hr⟩

/-- C10 (the code at the failing input): `GetAdptArrayAt` on an empty slot below `size`
does not return absent. The array made by `CreateAdptArray` on stale storage and one
`SetAdptArrayAt(a, 5, x)` has size 6; its slot 3 was never written and owns no element.
`GetAdptArrayAt(a, 3)` finds the stale word of the slot, hands it to `copy_func` and returns
the result. The other cases are as claimed: absent for a null handle, for a negative
index, for an index at or beyond `size`; a copy of the element for the occupied slot 5. -/
theorem get_on_empty_slot_returns_stale_word :
    CreateAdptArray sampleCopy sampleDel samplePrint true (some staleBlock)
      = some (sampleArray staleBlock) ∧
    SetAdptArrayAt (some (sampleArray staleBlock)) 5 (some 7) none env0
      = some { val := Result.SUCCESS, arr := some staleArray5,
               env := { world := 1, calls := [Event.copy (some 7) (some 7)] } } ∧
    ReachableOwning staleArray5
      (ownedAfter (sampleArray staleBlock) (fun _ => none) 5 none staleArray5) ∧
    ownedAfter (sampleArray staleBlock) (fun _ => none) 5 none staleArray5 3 = none ∧
    ownedAfter (sampleArray staleBlock) (fun _ => none) 5 none staleArray5 5 = some 7 ∧
    (3 : Int) < staleArray5.size ∧
    GetAdptArrayAt (some staleArray5) 3 env0
      = some { val := some 1003, arr := some staleArray5,
               env := { world := 1, calls := [Event.copy (some 1003) (some 1003)] } } ∧
    GetAdptArrayAt (some staleArray5) 5 env0
      = some { val := some 7, arr := some staleArray5,
               env := { world := 1, calls := [Event.copy (some 7) (some 7)] } } ∧
    GetAdptArrayAt (none : PAdptArray Nat) 3 env0
      = some { val := none, arr := none, env := env0 } ∧
    GetAdptArrayAt (some staleArray5) (-1) env0
      = some { val := none, arr := some staleArray5, env := env0 } ∧
    GetAdptArrayAt (some staleArray5) 6 env0
      = some { val := none, arr := some staleArray5, env := env0 } :=
  ⟨rfl, rfl,
    ReachableOwning.set (sampleArray staleBlock) (fun _ => none) 5 (some 7) none env0
      { val := Result.SUCCESS, arr := some staleArray5,
        env := { world := 1, calls := [Event.copy (some 7) (some 7)] } }
      staleArray5
      (ReachableOwning.create sampleCopy sampleDel samplePrint staleBlock
        (sampleArray staleBlock) rfl)
      rfl rfl,
    rfl, rfl, by decide, rfl, rfl, rfl, rfl, rfl⟩

/-- C14 (the code at the failing input): `PrintDB` prints empty slots. The array made by
`CreateAdptArray` on stale storage and one `SetAdptArrayAt(a, 5, x)` has one occupied slot,
slot 5; slots 0..4 were never written and own no element. `PrintDB` applies `print_func`
six times: to the stale words of slots 0..4, then to the element. The world of the sample
operations is the output stream, to which `print_func` appends its argument. On a null
handle nothing is printed. -/
theorem printDB_prints_empty_slots :
    CreateAdptArray streamCopy streamDel streamPrint true (some staleBlock)
      = some (streamArray staleBlock) ∧
    SetAdptArrayAt (some (streamArray staleBlock)) 5 (some 7) none { world := [], calls := [] }
      = some { val := Result.SUCCESS, arr := some streamArray5,
               env := { world := [], calls := [Event.copy (some 7) (some 7)] } } ∧
    ReachableOwning streamArray5
      (ownedAfter (streamArray staleBlock) (fun _ => none) 5 none streamArray5) ∧
    (∀ k : Nat, k ≠ 5 →
      ownedAfter (streamArray staleBlock) (fun _ => none) 5 none streamArray5 k = none) ∧
    PrintDB (some streamArray5) { world := [], calls := [] }
      = some { val := (), arr := some streamArray5,
               env := { world := [some 1000, some 1001, some 1002, some 1003, some 1004,
                                  some 7],
                        calls := [Event.print (some 1000), Event.print (some 1001),
                                  Event.print (some 1002), Event.print (some 1003),
                                  Event.print (some 1004), Event.print (some 7)] } } ∧
    PrintDB (none : PAdptArray (List PElement)) { world := [], calls := [] }
      = some { val := (), arr := none, env := { world := [], calls := [] } } := by
  refine ⟨rfl, rfl, ?_, ?_, rfl, rfl⟩
  · exact ReachableOwning.set (streamArray staleBlock) (fun _ => none) 5 (some 7) none
      { world := [], calls := [] }
      { val := Result.SUCCESS, arr := some streamArray5,
        env := { world := [], calls := [Event.copy (some 7) (some 7)] } }
      streamArray5
      (ReachableOwning.create streamCopy streamDel streamPrint staleBlock
        (streamArray staleBlock) rfl)
      rfl rfl
  · intro k hk
    have hcond : ¬ ((5 : Int) < 0 ∨
        ((streamArray staleBlock).capacity ≤ 5 ∧
          (none : Option (Nat → PElement)).isNone = true)) := by
      rintro (h | ⟨h, _⟩)
      · exact absurd h (by decide)
      · exact absurd h (by decide)
    simp only [ownedAfter, hcond, if_false]
    have hk' : k ≠ (5 : Int).toNat := hk
    simp only [hk', if_false]

/-! ## Slot accesses -/

/-- On an array with `size ≤ capacity` the read of `GetAdptArrayAt` is inside the storage. -/
theorem get_slot_cases {W : Type} (index : Int) (env : Env W) (a : AdptArray_ W)
    (h : a.size ≤ a.capacity) :
    GetAdptArrayAt (some a) index env
      = some (if index < 0 ∨ index ≥ a.size ∨ a.data index.toNat = none
          then { val := none, arr := some a, env := env }
          else { val := (callCopy a (a.data index.toNat) env).1, arr := some a,
                 env := (callCopy a (a.data index.toNat) env).2 }) := by
  unfold GetAdptArrayAt
  simp only
  by_cases h1 : index < 0 ∨ index ≥ a.size
  · have h2 : index < 0 ∨ index ≥ a.size ∨ a.data index.toNat = none := by
      rcases h1 with h | h
      · exact Or.inl h
      · exact Or.inr (Or.inl h)
    rw [if_pos h2, if_pos h1]
  · have hc : index < a.capacity := by omega
    rw [if_neg h1, if_pos hc]
    by_cases hd : a.data index.toNat = none
    · rw [if_pos (Or.inr (Or.inr hd)), if_pos hd]
    · have h2 : ¬ (index < 0 ∨ index ≥ a.size ∨ a.data index.toNat = none) := by
        intro h
        rcases h with h | h | h
        · exact h1 (Or.inl h)
        · exact h1 (Or.inr h)
        · exact hd h
      rw [if_neg h2, if_neg hd]

/-- On every array a program can hold, the reads of `GetAdptArrayAt`, `PrintDB` and
`DeleteAdptArray` stay inside the storage: each call completes. -/
theorem Reachable.reads_in_bounds {W : Type} {a : AdptArray_ W} (h : Reachable a)
    (index : Int) (env : Env W) :
    (∃ out, GetAdptArrayAt (some a) index env = some out) ∧
    (∃ out, PrintDB (some a) env = some out) ∧
    (∃ e, DeleteAdptArray (some a) env = some e) := by
  have hsc := h.bounds.2.1
  refine ⟨⟨_, (get_slot_cases index env a hsc)⟩, ?_, ⟨_, forSlots_eq a callDel env hsc⟩⟩
  unfold PrintDB
  simp only [forSlots_eq a callPrint env hsc, Option.map_some']
  exact ⟨_, rfl⟩

/-- On every array a program can hold, `SetAdptArrayAt` stays inside the storage for every
index with `0 ≤ index` and `index + 1 ≤ 2^30 - 1`, whatever `malloc` returns. -/
theorem Reachable.set_in_bounds {W : Type} {a : AdptArray_ W} (h : Reachable a)
    (index : Int) (elem : PElement) (new_data : Option (Nat → PElement)) (env : Env W)
    (h0 : 0 ≤ index) (hsmall : index + 1 ≤ 1073741823) :
    ∃ out, SetAdptArrayAt (some a) index elem new_data env = some out := by
  by_cases hfail : a.capacity ≤ index ∧ new_data = none
  · obtain ⟨hc, hn⟩ := hfail
    subst hn
    exact ⟨{ val := Result.FAIL, arr := some a, env := env },
      by
        have hn0 : ¬ index < 0 := by omega
        have hge : index ≥ a.capacity := hc
        simp [SetAdptArrayAt, hn0, hge]⟩
  · obtain ⟨b, _, _, hb⟩ := SetAdptArrayAt_completes a index elem new_data env h0
      (fun hc hn => hfail ⟨hc, hn⟩) (Or.inr ⟨h.bounds.1, h.bounds.2.1, hsmall⟩)
    exact ⟨_, hb⟩

/-- C19 (the code at the failing input): a slot access outside the storage. On a fresh
array, `SetAdptArrayAt(a, INT_MAX, x)` computes the new capacity `(INT_MAX + 1) * 2`, which
is 0 at 32 bits. When `malloc` returns a block for that request the growth step completes
and sets the capacity to 0; the index is then not below the capacity, and the read of slot
`INT_MAX` at line 94 lies outside the block: the call has no defined outcome. On an array
that holds elements (size 4) the `memcpy` of line 89 already overruns the new block. -/
theorem set_out_of_bounds_at_int_max :
    Reachable (sampleArray zeroBlock) ∧
    (0 : Int) ≤ 2147483647 ∧ (2147483647 : Int) ≤ INT_MAX ∧
    wrap32 (wrap32 (2147483647 + 1) * 2) = 0 ∧
    growTo (sampleArray zeroBlock) (wrap32 (wrap32 (2147483647 + 1) * 2)) zeroBlock
      = some { sampleArray zeroBlock with
                 data := fun k => if (k : Int) < 0 then zeroBlock k else zeroBlock k,
                 capacity := 0 } ∧
    storeAt { sampleArray zeroBlock with
                data := fun k => if (k : Int) < 0 then zeroBlock k else zeroBlock k,
                capacity := 0 } 2147483647 (some 7) env0 = none ∧
    SetAdptArrayAt (some (sampleArray zeroBlock)) 2147483647 (some 7) (some zeroBlock) env0
      = none ∧
    sampleArray3.size = 4 ∧
    growTo sampleArray3 (wrap32 (wrap32 (2147483647 + 1) * 2)) zeroBlock = none ∧
    SetAdptArrayAt (some sampleArray3) 2147483647 (some 7) (some zeroBlock) env0 = none :=
  ⟨Reachable.create sampleCopy sampleDel samplePrint zeroBlock (sampleArray zeroBlock) rfl,
    by decide, by decide, by decide, rfl, rfl, rfl, rfl, rfl, rfl⟩

/-- C20 (the code at the failing input): `del_func` is called on words that `copy_func`
never returned. Run: `CreateAdptArray` on stale storage, `SetAdptArrayAt(a, 3, x)`, then
`DeleteAdptArray`. The one duplicate that `copy_func` returned is released once, but
`del_func` is also called on the stale word of slot 3 (by the write) and on the stale words
of slots 0, 1 and 2 (by the destruction). -/
theorem release_of_stale_words :
    CreateAdptArray sampleCopy sampleDel samplePrint true (some staleBlock)
      = some (sampleArray staleBlock) ∧
    SetAdptArrayAt (some (sampleArray staleBlock)) 3 (some 7) none env0
      = some { val := Result.SUCCESS, arr := some staleArray3,
               env := { world := 1,
                        calls := [Event.del (some 1003), Event.copy (some 7) (some 7)] } } ∧
    DeleteAdptArray (some staleArray3)
        { world := 1, calls := [Event.del (some 1003), Event.copy (some 7) (some 7)] }
      = some { world := 0,
               calls := [Event.del (some 1003), Event.copy (some 7) (some 7),
                         Event.del (some 1000), Event.del (some 1001),
                         Event.del (some 1002), Event.del (some 7)] } ∧
    copiedOut [Event.del (some 1003), Event.copy (some 7) (some 7),
               Event.del (some 1000), Event.del (some 1001),
               Event.del (some 1002), Event.del (some 7)] = [some 7] ∧
    released [Event.del (some 1003), Event.copy (some 7) (some 7),
              Event.del (some 1000), Event.del (some 1001),
              Event.del (some 1002), Event.del (some 7)]
      = [some 1003, some 1000, some 1001, some 1002, some 7] :=
  ⟨rfl, rfl, rfl, rfl, rfl⟩

/-! ## Overflow of the doubled capacity -/

/-- C17 (the code at the failing input): the growth step lowers the capacity when
`(index + 1) * 2` overflows. On a fresh array (capacity 10), `SetAdptArrayAt(a, INT_MAX, x)`
computes the new capacity `(INT_MAX + 1) * 2`, which is 0 at 32 bits. When `malloc` returns
a block for that request the growth step stores 0 in `capacity`, below the previous 10;
nothing after line 92 assigns `capacity`, and the slot access of line 94 lies outside the
storage. -/
theorem growth_overflow_lowers_capacity :
    Reachable (sampleArray zeroBlock) ∧
    (sampleArray zeroBlock).capacity = 10 ∧
    (0 : Int) ≤ 2147483647 ∧ (2147483647 : Int) ≤ INT_MAX ∧
    (∃ b, growTo (sampleArray zeroBlock) (wrap32 (wrap32 (2147483647 + 1) * 2)) zeroBlock
        = some b ∧ b.capacity = 0 ∧ b.capacity < (sampleArray zeroBlock).capacity) ∧
    SetAdptArrayAt (some (sampleArray zeroBlock)) 2147483647 (some 7) (some zeroBlock) env0
      = none :=
  ⟨Reachable.create sampleCopy sampleDel samplePrint zeroBlock (sampleArray zeroBlock) rfl,
    rfl, by decide, by decide, ⟨_, rfl, rfl, by decide⟩, rfl⟩

/-! ## Ownership on cleared storage -/

theorem held_update_inside (f : Nat → PElement) (n idx : Nat) (dup : PElement)
    (h : idx < n) :
    ((Multiset.range n).map (fun k => if k = idx then dup else f k)).filter
        (fun x => x ≠ none) + handle (f idx)
      = ((Multiset.range n).map f).filter (fun x => x ≠ none) + handle dup := by
  have hmem : idx ∈ Multiset.range n := Multiset.mem_range.2 h
  have hc : ((Multiset.range n).erase idx).map (fun k => if k = idx then dup else f k)
      = ((Multiset.range n).erase idx).map f := by
    apply Multiset.map_congr rfl
    intro k hk
    have hne : k ≠ idx := ((Multiset.nodup_range n).mem_erase_iff.1 hk).1
    simp [hne]
  conv_lhs => rw [← Multiset.cons_erase hmem]
  conv_rhs => rw [← Multiset.cons_erase hmem]
  simp only [Multiset.map_cons, Multiset.filter_cons, if_true, hc, handle]
  abel

theorem held_null_tail (f : Nat → PElement) (n m : Nat) (hnm : n ≤ m)
    (hnull : ∀ k, n ≤ k → k < m → f k = none) :
    ((Multiset.range m).map f).filter (fun x => x ≠ none)
      = ((Multiset.range n).map f).filter (fun x => x ≠ none) := by
  induction m, hnm using Nat.le_induction with
  | base => rfl
  | succ m hm ih =>
    have hfm : f m = none := hnull m hm (Nat.lt_succ_self m)
    rw [Multiset.range_succ, Multiset.map_cons, Multiset.filter_cons, hfm]
    simp only [ne_eq, not_true_eq_false, if_false, zero_add]
    exact ih (fun k h1 h2 => hnull k h1 (Nat.lt_succ_of_lt h2))

theorem held_update_outside (f : Nat → PElement) (n idx : Nat) (dup : PElement)
    (h : n ≤ idx) :
    ((Multiset.range n).map (fun k => if k = idx then dup else f k)).filter
        (fun x => x ≠ none)
      = ((Multiset.range n).map f).filter (fun x => x ≠ none) := by
  congr 1
  apply Multiset.map_congr rfl
  intro k hk
  have hlt : k < n := Multiset.mem_range.1 hk
  have hne : k ≠ idx := by omega
  simp [hne]

theorem copiedOut_append (l l' : List Event) :
    copiedOut (l ++ l') = copiedOut l ++ copiedOut l' := by
  simp [copiedOut, List.filterMap_append]

theorem released_append (l l' : List Event) :
    released (l ++ l') = released l ++ released l' := by
  simp [released, List.filterMap_append]

/-- Lines 94-104 on an array whose slots from `size` on are `NULL`: the handles held
afterwards, together with the one that was in the slot, are the handles held before
together with the duplicate. -/
theorem heldHandles_store {W : Type} (b : AdptArray_ W) (index : Int) (elem : PElement)
    (env : Env W) (a' : AdptArray_ W) (h0 : 0 ≤ index) (hs0 : 0 ≤ b.size)
    (hw : wrap32 (index + 1) = index + 1)
    (hnull : ∀ k : Nat, b.size ≤ (k : Int) → b.data k = none)
    (harr : (storeOutcome b index elem env).arr = some a') :
    heldHandles a' + handle (b.data index.toNat)
      = heldHandles b + handle (callCopy b elem (afterRelease b index env)).1 := by
  have harr' := Option.some.inj harr
  subst harr'
  generalize (callCopy b elem (afterRelease b index env)).1 = dup
  unfold heldHandles
  simp only
  by_cases hs : index ≥ b.size
  · have hold : b.data index.toNat = none := hnull index.toNat (by omega)
    have hle : b.size.toNat ≤ index.toNat := by omega
    by_cases hd : dup = none
    · subst hd
      simp only [ne_eq, not_true_eq_false, false_and, if_false, hold, handle, add_zero]
      exact held_update_outside b.data b.size.toNat index.toNat none hle
    · have hsz : (index + 1).toNat = index.toNat + 1 := by omega
      simp only [ne_eq, hd, not_false_eq_true, hs, and_self, if_true, hw, hsz, hold, handle,
        not_true_eq_false, if_false, add_zero]
      rw [Multiset.range_succ, Multiset.map_cons, Multiset.filter_cons]
      simp only [if_true, hd, ne_eq, not_false_eq_true]
      rw [held_update_outside b.data index.toNat index.toNat dup (le_refl _),
        held_null_tail b.data b.size.toNat index.toNat hle
          (fun k h1 _ => hnull k (by omega))]
      abel
  · have hlt : index.toNat < b.size.toNat := by omega
    simp only [hs, and_false, if_false]
    exact held_update_inside b.data b.size.toNat index.toNat dup hlt

/-- The base array of a call holds the handles the array held, and on cleared storage its
slots from `size` on are `NULL`. -/
theorem StoreBase.held {W : Type} {a b : AdptArray_ W} {index : Int}
    {new_data : Option (Nat → PElement)} (hb : StoreBase a index new_data b)
    (hnull : NullBeyondSize a) (hz : ∀ g, new_data = some g → ∀ k, g k = none) :
    heldHandles b = heldHandles a ∧ ∀ k : Nat, b.size ≤ (k : Int) → b.data k = none := by
  rcases hb with ⟨_, rfl⟩ | ⟨g, hg, _, _, rfl⟩
  · exact ⟨rfl, hnull⟩
  · constructor
    · unfold heldHandles
      simp only
      congr 1
      apply Multiset.map_congr rfl
      intro k hk
      have hlt : k < a.size.toNat := Multiset.mem_range.1 hk
      have hk' : (k : Int) < a.size := by omega
      simp [hk']
    · intro k hk
      have hnot : ¬ ((k : Int) < a.size) := by
        simp only at hk
        omega
      simp only [hnot, if_false]
      exact hz g hg k

theorem coe_snoc (l : List PElement) (x : PElement) :
    ((l ++ [x] : List PElement) : Multiset PElement) = (l : Multiset PElement) + {x} := by
  rw [← Multiset.coe_singleton, Multiset.coe_add]

theorem storeOutcome_copiedOut {W : Type} (b : AdptArray_ W) (index : Int) (elem : PElement)
    (env : Env W) :
    (copiedOut (storeOutcome b index elem env).env.calls : Multiset PElement)
      = (copiedOut env.calls : Multiset PElement)
        + handle (callCopy b elem (afterRelease b index env)).1 := by
  simp only [storeOutcome, callCopy, afterRelease]
  by_cases hold : b.data index.toNat = none
  · simp only [hold, ne_eq, not_true_eq_false, if_false, copiedOut_append]
    by_cases hd : (b.copy_func elem env.world).1 = none
    · simp [copiedOut, handle, hd]
    · simp only [copiedOut, handle, hd, List.filterMap_cons, List.filterMap_nil, if_false,
        ne_eq, not_false_eq_true, if_true]
      exact coe_snoc _ _
  · simp only [hold, ne_eq, not_false_eq_true, if_true, callDel, copiedOut_append]
    by_cases hd : (b.copy_func elem (b.del_func (b.data index.toNat) env.world)).1 = none
    · simp [copiedOut, handle, hd]
    · simp only [copiedOut, handle, hd, List.filterMap_cons, List.filterMap_nil, if_false,
        ne_eq, not_false_eq_true, if_true, List.append_nil, List.append_assoc,
        List.nil_append]
      exact coe_snoc _ _

theorem storeOutcome_released {W : Type} (b : AdptArray_ W) (index : Int) (elem : PElement)
    (env : Env W) :
    (released (storeOutcome b index elem env).env.calls : Multiset PElement)
      = (released env.calls : Multiset PElement) + handle (b.data index.toNat) := by
  simp only [storeOutcome, callCopy, afterRelease]
  by_cases hold : b.data index.toNat = none
  · simp [hold, released_append, released, handle]
  · simp only [hold, ne_eq, not_false_eq_true, if_true, callDel]
    rw [released_append, released_append]
    simp only [released, List.filterMap_cons, List.filterMap_nil, List.append_nil, handle,
      hold, ne_eq, not_false_eq_true, if_true]
    exact coe_snoc _ _

theorem RunCleared.reachableCleared {W : Type} {a : AdptArray_ W} {log : List Event}
    (h : RunCleared a log) : ReachableCleared a := by
  induction h with
  | create copy_func del_func print_func a h =>
    exact ReachableCleared.create copy_func del_func print_func a h
  | set a log index elem new_data w out a' _ hz h harr ih =>
    exact ReachableCleared.set a index elem new_data _ out a' ih hz h harr

/-- On cleared storage, at every point of a run, the duplicates `copy_func` has returned are
those already passed to `del_func` together with those held by the slots below `size`. -/
theorem RunCleared.balance {W : Type} {a : AdptArray_ W} {log : List Event}
    (h : RunCleared a log) :
    (copiedOut log : Multiset PElement) = (released log : Multiset PElement) + heldHandles a := by
  induction h with
  | create copy_func del_func print_func a h =>
    simp [CreateAdptArray] at h
    subst h
    simp [copiedOut, released, heldHandles]
  | set a log index elem new_data w out a' hr hz h harr ih =>
    by_cases hneg : index < 0
    · rw [SetAdptArrayAt_neg a index elem new_data _ hneg] at h
      have := Option.some.inj h
      subst this
      have := Option.some.inj harr
      subst this
      exact ih
    have h0 : 0 ≤ index := by omega
    rcases SetAdptArrayAt_outcome a index elem new_data _ _ h0 h with ⟨_, _, hf⟩ | ⟨b, hb, hlt, ho⟩
    · subst hf
      have := Option.some.inj harr
      subst this
      exact ih
    · have hbounds := hr.reachableCleared.reachable.bounds
      have hw := hb.wrap_succ h0 hlt hbounds.2.2
      have hnull := hr.reachableCleared.nullBeyondSize
      obtain ⟨hheld, hbnull⟩ := hb.held hnull hz
      have hsz := hb.facts.1
      subst ho
      have hstore := heldHandles_store b index elem { world := w, calls := log } a' h0
        (by rw [hsz]; exact hbounds.1) hw hbnull harr
      rw [storeOutcome_copiedOut, storeOutcome_released]
      simp only at ih ⊢
      rw [ih, ← hheld, add_assoc, ← hstore]
      abel

theorem released_map_del (f : Nat → PElement) (l : List Nat) :
    released (l.map (fun i => Event.del (f i))) = l.map f := by
  induction l with
  | nil => rfl
  | cons i l ih => simpa [released] using ih

theorem copiedOut_map_del (f : Nat → PElement) (l : List Nat) :
    copiedOut (l.map (fun i => Event.del (f i))) = [] := by
  induction l with
  | nil => rfl
  | cons i l ih => simp [copiedOut]

theorem heldBelowSize_handles {W : Type} (a : AdptArray_ W) :
    (((heldBelowSize a).map a.data : List PElement) : Multiset PElement) = heldHandles a := by
  unfold heldBelowSize heldHandles
  show _ = Multiset.filter _ (Multiset.map a.data (↑(List.range a.size.toNat)))
  rw [Multiset.map_coe, Multiset.filter_coe, List.filter_map]
  rfl

/-- Ownership balance on cleared storage: after any run of `SetAdptArrayAt` calls followed by
`DeleteAdptArray`, the handles passed to `del_func` are, with multiplicity, exactly the
duplicates that `copy_func` returned. -/
theorem release_balance_on_cleared_storage {W : Type} {a : AdptArray_ W} {log : List Event}
    (h : RunCleared a log) (w : W) :
    ∃ e, DeleteAdptArray (some a) { world := w, calls := log } = some e ∧
      (released e.calls).Perm (copiedOut e.calls) := by
  obtain ⟨e, he, hcalls⟩ := DeleteAdptArray_calls a { world := w, calls := log }
    h.reachableCleared.reachable.bounds.2.1
  refine ⟨e, he, ?_⟩
  rw [← Multiset.coe_eq_coe, hcalls]
  simp only [released_append, copiedOut_append, released_map_del, copiedOut_map_del,
    List.append_nil, ← Multiset.coe_add]
  rw [heldBelowSize_handles, h.balance]

/-- Destruction on cleared storage: `DeleteAdptArray`
calls `del_func` exactly once on the content of every slot that is not `NULL`, in ascending
index order, and on nothing else. -/
theorem delete_on_cleared_storage {W : Type} {a : AdptArray_ W} (h : ReachableCleared a)
    (env : Env W) :
    ∃ e, DeleteAdptArray (some a) env = some e ∧
      ∃ l : List Nat, l.Pairwise (fun i j => i < j) ∧ (∀ i, i ∈ l ↔ a.data i ≠ none) ∧
        e.calls = env.calls ++ l.map (fun i => Event.del (a.data i)) := by
  obtain ⟨e, he, hcalls⟩ := DeleteAdptArray_calls a env h.reachable.bounds.2.1
  refine ⟨e, he, heldBelowSize a, heldBelowSize_ascending a, fun i => ?_, hcalls⟩
  rw [heldBelowSize_mem]
  constructor
  · exact fun hi => hi.2
  · intro hi
    refine ⟨?_, hi⟩
    by_contra hnot
    exact hi (h.nullBeyondSize i (by omega))

end AdptArray
